import Mathlib

/-!
Verification of the retrieval-and-answer-grounding backend.

This file gives a shallow embedding, in Lean 4, of the core services of the
repository (`app/services/chunking.py`, `heading_detection.py`, `indexer.py`,
`rag.py`) and proves or refutes the specification claims about them.

Conventions of the embedding:
* Python strings are embedded as `List Char` (`Str` below); only the ASCII
  whitespace set of `str.strip` / `\s` is modelled, which covers every input
  appearing in the source and in the statements.
* Python floats are embedded as rationals (`ℚ`).  The two float comparisons in
  the source (`last_space > max_length * 0.7` with `max_length = 220`, and the
  similarity thresholds) are exact at the integer points that matter, so the
  rational model coincides with the float behaviour there.
* The external embedding / LLM clients are opaque collaborators in the code and
  are passed in as function parameters.
* The SQLAlchemy session is embedded as a pair of document/chunk states
  (`committed`, the database, and `cur`, the in-memory session view):
  attribute assignment mutates `cur`, `commit` copies `cur` into `committed`,
  and `rollback` restores `cur` from `committed` (discarding un-flushed
  attribute changes, as SQLAlchemy's `Session.rollback` does).
-/

namespace AIAdvisor

/-- Python strings, embedded as lists of characters. -/
abbrev Str := List Char

/-- The whitespace set of Python's `str.strip`, `str.split()` and `\s`
(ASCII fragment): space, tab, newline, carriage return, vertical tab,
form feed. -/
def pyWs (c : Char) : Bool :=
  c = ' ' || c = '\t' || c = '\n' || c = '\r' ||
  c = Char.ofNat 11 || c = Char.ofNat 12

/-- `s.lstrip()`. -/
def pyLStrip (s : Str) : Str := s.dropWhile pyWs

/-- `s.rstrip()`. -/
def pyRStrip (s : Str) : Str := (s.reverse.dropWhile pyWs).reverse

/-- `s.strip()`. -/
def pyStrip (s : Str) : Str := pyRStrip (pyLStrip s)

/-- `s[-k:]` for `k > 0`: the last `min k (len s)` characters. -/
def pyLastSlice (k : ℕ) (s : Str) : Str := s.drop (s.length - k)

/-- `sep.join(parts)`. -/
def pyJoin (sep : Str) (parts : List Str) : Str :=
  List.intercalate sep parts

/-- Helper: `dropWhile` never lengthens a list. -/
theorem length_dropWhile_le (p : Char → Bool) (l : Str) :
    (l.dropWhile p).length ≤ l.length := by
  induction l with
  | nil => simp
  | cons c rest ih =>
    by_cases h : p c
    · simpa [List.dropWhile, h] using Nat.le_succ_of_le ih
    · simp [List.dropWhile, h]

/-!
Scanning functions that consume a maximal character run per step are written
with an explicit fuel parameter (structural recursion on the fuel, so that the
kernel can evaluate them); each wrapper passes the list length as fuel, which
is always sufficient because every step consumes at least one character.
-/

/-- `re.sub(r'\n{3,}', '\n\n', text)` (fueled scan): collapse every run of
three or more newlines to exactly two; shorter runs are kept as they are. -/
def normNewlinesGo : ℕ → Str → Str
  | _, [] => []
  | 0, s => s
  | fuel + 1, c :: rest =>
    if c = '\n' then
      let run := List.takeWhile (fun d => d = '\n') (c :: rest)
      let rest' := List.dropWhile (fun d => d = '\n') rest
      (if run.length ≥ 3 then ['\n', '\n'] else run) ++ normNewlinesGo fuel rest'
    else
      c :: normNewlinesGo fuel rest

/-- `re.sub(r'\n{3,}', '\n\n', text)`. -/
def normNewlines (s : Str) : Str := normNewlinesGo s.length s

/-- `text.split('\n\n')`, as a scan that accumulates the current piece in
reverse: split on each non-overlapping, leftmost occurrence of two
consecutive newlines. -/
def splitNNGo (acc : Str) : Str → List Str
  | [] => [acc.reverse]
  | [c] => [(c :: acc).reverse]
  | c :: d :: rest =>
    if c = '\n' && d = '\n' then acc.reverse :: splitNNGo [] rest
    else splitNNGo (c :: acc) (d :: rest)

/-- `text.split('\n\n')`. -/
def splitNN (s : Str) : List Str := splitNNGo [] s

/-- `text.split('\n')`, as a scan that accumulates the current piece in
reverse: split on every single newline. -/
def splitLinesGo (acc : Str) : Str → List Str
  | [] => [acc.reverse]
  | c :: rest =>
    if c = '\n' then acc.reverse :: splitLinesGo [] rest
    else splitLinesGo (c :: acc) rest

/-- `text.split('\n')`. -/
def splitLines (s : Str) : List Str := splitLinesGo [] s

/-- `sentence.split()` (fueled scan): split on runs of whitespace, discarding
empty pieces. -/
def splitWsRunsGo : ℕ → Str → List Str
  | _, [] => []
  | 0, _ => []
  | fuel + 1, c :: rest =>
    if pyWs c then splitWsRunsGo fuel rest
    else
      let w := c :: List.takeWhile (fun d => !pyWs d) rest
      let rest' := List.dropWhile (fun d => !pyWs d) rest
      w :: splitWsRunsGo fuel rest'

/-- `sentence.split()`. -/
def splitWsRuns (s : Str) : List Str := splitWsRunsGo s.length s

/-- Sentence terminators of `re.split(r'(?<=[.!?])\s+', para)`. -/
def sentPunct (c : Char) : Bool := c = '.' || c = '!' || c = '?'

/-- `re.split(r'(?<=[.!?])\s+', para)` (no capture, fueled scan): cut at every
maximal whitespace run that immediately follows one of `.`, `!`, `?`; the
whitespace itself is discarded.  The scan carries the previous character for
the lookbehind. -/
def splitSentencesGo : ℕ → Option Char → Str → Str → List Str
  | _, _, acc, [] => [acc.reverse]
  | 0, _, acc, s => [acc.reverse ++ s]
  | fuel + 1, prev, acc, c :: rest =>
    if (match prev with | some p => sentPunct p | none => false) && pyWs c then
      let run := List.takeWhile pyWs (c :: rest)
      let rest' := List.dropWhile pyWs rest
      acc.reverse :: splitSentencesGo fuel run.getLast? [] rest'
    else splitSentencesGo fuel (some c) (c :: acc) rest

/-- `re.split(r'(?<=[.!?])\s+', para)`. -/
def splitSentences (para : Str) : List Str :=
  splitSentencesGo para.length none [] para

/-- Does `sub` occur as a contiguous substring of `s`?  Python's `in`. -/
def containsSub (sub s : Str) : Bool :=
  match s with
  | [] => sub.isEmpty
  | _ :: rest => sub.isPrefixOf s || containsSub sub rest

/-!  ## `app/services/chunking.py` — `chunk_text`  -/

/-- The mutable state of the paragraph-packing loop of `chunk_text`:
the emitted chunks, the current chunk (a list of pieces to be joined),
and the running `current_length` counter. -/
structure CTState where
  chunks : List Str
  cur : List Str
  curLen : ℕ
  deriving Repr, DecidableEq

/-- The body of the word loop of `chunk_text` (lines 77–90).  The overlap
assignment at lines 86–88 is dead code in the source: `current_chunk` is
unconditionally overwritten with `[word]` right after it. -/
def wordStep (chunkSize : ℕ) (st : CTState) (w : Str) : CTState :=
  let wl := w.length + 1
  if st.curLen + wl ≤ chunkSize then
    { st with cur := st.cur ++ [w], curLen := st.curLen + wl }
  else
    let chunks' :=
      if st.cur ≠ [] then st.chunks ++ [pyJoin [' '] st.cur] else st.chunks
    { chunks := chunks', cur := [w], curLen := wl }

/-- The body of the sentence loop of `chunk_text` (lines 58–90). -/
def sentStep (chunkSize overlap : ℕ) (st : CTState) (sent : Str) : CTState :=
  let sl := sent.length
  if st.curLen + sl + 1 ≤ chunkSize then
    { st with cur := st.cur ++ [sent], curLen := st.curLen + sl + 1 }
  else if st.cur ≠ [] then
    let cstr := pyJoin [' '] st.cur
    let chunks' := st.chunks ++ [cstr]
    if cstr.length > overlap then
      { chunks := chunks', cur := [pyLastSlice overlap cstr, sent],
        curLen := overlap + sl + 1 }
    else
      { chunks := chunks', cur := [sent], curLen := sl + 1 }
  else
    (splitWsRuns sent).foldl (wordStep chunkSize) st

/-- The body of the paragraph loop of `chunk_text` (lines 35–99). -/
def paraStep (chunkSize overlap : ℕ) (st : CTState) (para0 : Str) : CTState :=
  let para := pyStrip para0
  if para = [] then st
  else
    let pl := para.length
    if st.curLen + pl + 2 ≤ chunkSize then
      { st with cur := st.cur ++ [para], curLen := st.curLen + pl + 2 }
    else
      let st1 :=
        if st.cur ≠ [] then
          { st with chunks := st.chunks ++ [pyJoin ['\n', '\n'] st.cur] }
        else st
      if pl > chunkSize then
        (splitSentences para).foldl (sentStep chunkSize overlap)
          { st1 with cur := [], curLen := 0 }
      else
        match st1.chunks.getLast? with
        | some lastChunk =>
          if lastChunk.length > overlap then
            { chunks := st1.chunks,
              cur := [pyLastSlice overlap lastChunk, para],
              curLen := overlap + pl + 2 }
          else
            { chunks := st1.chunks, cur := [para], curLen := pl }
        | none =>
          { chunks := st1.chunks, cur := [para], curLen := pl }

/-- The final-chunk join of `chunk_text` (line 103): `'\n\n'.join` when the
first piece of `current_chunk` contains a paragraph break, `' '.join`
otherwise. -/
def finalJoin (cur : List Str) : Str :=
  match cur.head? with
  | some first =>
    if containsSub ['\n', '\n'] first then pyJoin ['\n', '\n'] cur
    else pyJoin [' '] cur
  | none => []

/-- The hard-cap `while` loop of `chunk_text` (lines 112–117), as a fueled
loop: while the chunk is oversized, emit `chunk[:chunk_size]` and continue
with `chunk[chunk_size - overlap:]`; when the loop exits, emit the non-empty
remainder.  `none` models a run that exhausts the fuel (the Python loop not
yet finished); the loop terminates precisely because each iteration removes
`chunk_size - overlap > 0` characters when `overlap < chunk_size`. -/
def hardCapLoop (chunkSize overlap : ℕ) : ℕ → Str → Option (List Str)
  | 0, c => if c.length ≤ chunkSize then some (if c = [] then [] else [c]) else none
  | fuel + 1, c =>
    if chunkSize < c.length then
      (hardCapLoop chunkSize overlap fuel (c.drop (chunkSize - overlap))).map
        (fun rest => c.take chunkSize :: rest)
    else
      some (if c = [] then [] else [c])

/-- The hard-cap pass applied to one oversized chunk.  `chunk.length` steps of
fuel always suffice when `overlap < chunk_size` (proved in `hardCapLoop_total`
below), so the `.getD []` default is never taken in that case. -/
def hardCap (chunkSize overlap : ℕ) (c : Str) : List Str :=
  (hardCapLoop chunkSize overlap c.length c).getD []

/-- The final size-limiting pass of `chunk_text` (lines 107–117). -/
def capPass (chunkSize overlap : ℕ) (chunks : List Str) : List Str :=
  chunks.flatMap fun c =>
    if c.length ≤ chunkSize then [c] else hardCap chunkSize overlap c

/-- `chunk_text(text, chunk_size, overlap)` from
`app/services/chunking.py`. -/
def chunk_text (text : Str) (chunkSize overlap : ℕ) : List Str :=
  if pyStrip text = [] then []
  else
    let t := pyStrip (normNewlines text)
    let paras := splitNN t
    let st := paras.foldl (paraStep chunkSize overlap) ⟨[], [], 0⟩
    let chunks :=
      if st.cur ≠ [] then st.chunks ++ [finalJoin st.cur] else st.chunks
    ((capPass chunkSize overlap chunks).map pyStrip).filter (· ≠ [])

/-!  ## `app/services/heading_detection.py`  -/

/-- ASCII decimal digit. -/
def isDigitCh (c : Char) : Bool := '0' ≤ c && c ≤ '9'

/-- Rule A of `is_heading`: the line matches `^\d+(\.\d+)*\s+`.  The regex
is deterministic here (backtracking cannot help: after giving back part of a
digit run or a `.\d+` group the next character is a digit or a dot, never
whitespace), so maximal-munch parsing decides it. -/
def ruleAAfterGroups : ℕ → Str → Bool
  | _, [] => false
  | 0, _ => false
  | fuel + 1, c :: rest =>
    if c = '.' then
      let ds := List.takeWhile isDigitCh rest
      if ds ≠ [] then ruleAAfterGroups fuel (List.dropWhile isDigitCh rest)
      else false
    else
      pyWs c

/-- Rule A of `is_heading` on an (already stripped) line. -/
def ruleA (l : Str) : Bool :=
  let ds := List.takeWhile isDigitCh l
  ds ≠ [] && ruleAAfterGroups l.length (List.dropWhile isDigitCh l)

/-- Length of the leftmost match of `^\d+(\.\d+)*\s+` in `l`, or `none`
(fueled scan).  Both `\d+` runs and the trailing `\s+` are greedy. -/
def ruleAMatchLenAfter : ℕ → Str → ℕ → Option ℕ
  | _, [], _ => none
  | 0, _, _ => none
  | fuel + 1, c :: rest, acc =>
    if c = '.' then
      let ds := List.takeWhile isDigitCh rest
      if ds ≠ [] then
        ruleAMatchLenAfter fuel (List.dropWhile isDigitCh rest)
          (acc + 1 + ds.length)
      else none
    else
      if pyWs c then
        some (acc + 1 + (List.takeWhile pyWs rest).length)
      else none

/-- Length of the leftmost match of `^\d+(\.\d+)*\s+`, or `none`. -/
def ruleAMatchLen (l : Str) : Option ℕ :=
  let ds := List.takeWhile isDigitCh l
  if ds = [] then none
  else
    ruleAMatchLenAfter l.length (List.dropWhile isDigitCh l) ds.length

/-- Uppercase ASCII letter. -/
def isUpperAZ (c : Char) : Bool := 'A' ≤ c && c ≤ 'Z'

/-- `is_heading(line)` from `heading_detection.py`: strip the line, then
rule A (numeric outline prefix), rule B (ends with `:` and shorter than 120),
or rule C (`isupper` and only `[A-Z\s]`, shorter than 80). -/
def is_heading (line : Str) : Bool :=
  let l := pyStrip line
  if l = [] then false
  else
    ruleA l ||
    (l.getLast? = some ':' && l.length < 120) ||
    (l.length < 80 && l.all (fun c => isUpperAZ c || pyWs c) && l.any isUpperAZ)

/-- The heading label derived from a heading line (lines 64–69 of
`heading_detection.py`): remove the numeric prefix via
`re.sub(r'^\d+(\.\d+)*\s+', '', line)` (applied to the raw line), strip,
remove a trailing colon, strip again; fall back to the stripped line when
the result is empty. -/
def headingLabel (line : Str) : Str :=
  let noNum :=
    match ruleAMatchLen line with
    | some k => line.drop k
    | none => line
  let cleaned := pyStrip noNum
  let cleaned2 :=
    if cleaned.getLast? = some ':' then pyStrip cleaned.dropLast else cleaned
  if cleaned2 ≠ [] then cleaned2 else pyStrip line

/-- `extract_headings(text)`: walk the lines, carrying the most recent
heading; record an entry `(line_start, current_heading)` for every line.
The result is an association list in increasing key order (dict insertion
order); keys are distinct line starts. -/
def extract_headings (text : Str) : List (ℕ × Option Str) :=
  let step :
      (ℕ × Option Str × List (ℕ × Option Str)) → Str →
      (ℕ × Option Str × List (ℕ × Option Str)) := fun st line =>
    let pos := st.1
    let current := if is_heading line then some (headingLabel line) else st.2.1
    (pos + line.length + 1, current, st.2.2 ++ [(pos, current)])
  ((splitLines text).foldl step (0, none, [])).2.2

/-- `find_heading_for_position(heading_map, position)`: the value stored at
the greatest key `≤ position`, or `None` when the map is empty or no key
qualifies.  (`max` over Python dict keys; keys are unique.) -/
def find_heading_for_position (hm : List (ℕ × Option Str)) (pos : ℕ) :
    Option Str :=
  let valid := hm.filter (fun e => e.1 ≤ pos)
  match valid.foldl
      (fun acc e =>
        match acc with
        | none => some e
        | some a => if e.1 > a.1 then some e else some a)
      none with
  | none => none
  | some e => e.2

/-- The scan of `text.find(sub, start)`: the index (counted from `i`) of the
leftmost occurrence of `sub` in `t`, or `none`. -/
def findOccGo (sub : Str) : ℕ → Str → Option ℕ
  | i, [] => if sub.isEmpty then some i else none
  | i, t@(_ :: rest) =>
    if sub.isPrefixOf t then some i else findOccGo sub (i + 1) rest

/-- `text.find(sub, start)` for a non-empty `sub` (as an option; Python
returns `-1` for no occurrence, which every caller immediately replaces). -/
def pyFindFrom (t sub : Str) (start : ℕ) : Option ℕ :=
  findOccGo sub start (t.drop start)

/-- The chunk-locating loop of `chunk_text_with_headings` (lines 136–149):
locate each chunk by forward search from `search_start`, falling back to
`search_start` itself when the chunk cannot be found; attach the heading at
the located start; advance the cursor to `chunk_start + 1`. -/
def locateChunks (text : Str) (hm : List (ℕ × Option Str)) :
    ℕ → List Str → List (Str × ℕ × ℕ × Option Str)
  | _, [] => []
  | searchStart, c :: rest =>
    let start := (pyFindFrom text c searchStart).getD searchStart
    let stop := start + c.length
    (c, start, stop, find_heading_for_position hm start) ::
      locateChunks text hm (start + 1) rest

/-- `chunk_text_with_headings(text, chunk_size, overlap)` from
`heading_detection.py`. -/
def chunk_text_with_headings (text : Str) (chunkSize overlap : ℕ) :
    List (Str × ℕ × ℕ × Option Str) :=
  if pyStrip text = [] then []
  else
    let hm := extract_headings text
    let chunks := chunk_text text chunkSize overlap
    locateChunks text hm 0 chunks

/-!  ## `app/services/rag.py` — quote extraction  -/

/-- The sentence splitter of `_extract_quotes`:
`re.split(r'([.!?]\s+|\.$)', text)` with a capture group, as a fueled
leftmost-match scan.  The result is the list of (segment, delimiter) pairs
plus the trailing segment.  At each position the first alternative
(`[.!?]` followed by a maximal whitespace run) is preferred; the second
(`\.` at end of input) applies only at the last character.  (`$` can also
match before a trailing newline in Python, but `_extract_quotes` always
strips its input first, so no trailing newline can occur.) -/
def qSplitGo : ℕ → Str → Str → List (Str × Str) × Str
  | _, acc, [] => ([], acc.reverse)
  | 0, acc, s => ([], acc.reverse ++ s)
  | fuel + 1, acc, c :: rest =>
    if sentPunct c && (match rest.head? with | some d => pyWs d | none => false)
    then
      let run := List.takeWhile pyWs rest
      let rest' := List.dropWhile pyWs rest
      let next := qSplitGo fuel [] rest'
      ((acc.reverse, c :: run) :: next.1, next.2)
    else if c = '.' && rest.isEmpty then
      ([(acc.reverse, [c])], [])
    else qSplitGo fuel (c :: acc) rest

/-- `re.split(r'([.!?]\s+|\.$)', text)`: segment/delimiter pairs plus the
trailing segment (which the reconstruction loop of `_extract_quotes` always
drops, because the split list has odd length). -/
def qSplit (text : Str) : List (Str × Str) × Str := qSplitGo text.length [] text

/-- The sentence reconstruction of `_extract_quotes` (lines 624–632): join
each segment with its delimiter, strip, and drop empties. -/
def reconstructSentences (text : Str) : List Str :=
  (((qSplit text).1.map (fun p => pyStrip (p.1 ++ p.2))).filter (· ≠ []))

/-- `t.rfind(' ')`: the greatest index of a space in `t`, or `none` (`-1`). -/
def pyRFindSpace (t : Str) : Option ℕ :=
  (t.reverse.findIdx? (fun c => c = ' ')).map (fun j => t.length - 1 - j)

/-- The truncation of an over-long sentence in `_extract_quotes`
(lines 643–649, repeated at 658–664): keep the first `maxLength` characters;
cut at the last space when it lies beyond `0.7 * maxLength`, otherwise
right-strip; append an ellipsis.  (`last_space > max_length * 0.7` is a float
comparison; at `max_length = 220` the float product is exactly `154.0`, so
the rational condition `10 * last_space > 7 * maxLength` is exact.) -/
def truncateQuote (maxLength : ℕ) (s : Str) : Str :=
  let t := s.take maxLength
  match pyRFindSpace t with
  | some i =>
    if 10 * i > 7 * maxLength then t.take i ++ "...".data
    else pyRStrip t ++ "...".data
  | none => pyRStrip t ++ "...".data

/-- The quote-collecting loop of `_extract_quotes` (lines 636–651): take
sentences of length `≤ maxLength` until `maxQuotes` are collected; when the
quote list is still empty and the sentence is over-long, emit its truncation
and stop; otherwise skip the over-long sentence and continue. -/
def quoteLoop (maxQuotes maxLength : ℕ) : List Str → List Str → List Str
  | acc, [] => acc
  | acc, s :: rest =>
    if s.length ≤ maxLength then
      let acc' := acc ++ [s]
      if maxQuotes ≤ acc'.length then acc' else quoteLoop maxQuotes maxLength acc' rest
    else if acc = [] then [truncateQuote maxLength s]
    else quoteLoop maxQuotes maxLength acc rest

/-- `_extract_quotes(chunk_text, max_quotes=2, max_length=220)` from
`app/services/rag.py`. -/
def extract_quotes (chunkText : Str) (maxQuotes maxLength : ℕ) : List Str :=
  if pyStrip chunkText = [] then []
  else
    let text := pyStrip chunkText
    let recon := reconstructSentences text
    let quotes := if recon ≠ [] then quoteLoop maxQuotes maxLength [] recon else []
    if quotes ≠ [] then quotes.take maxQuotes
    else if maxLength < text.length then [truncateQuote maxLength text]
    else [text]

/-!  ## `app/services/rag.py` — answer keywords and quote relevance  -/

/-- Lower-casing of `str.lower()` (ASCII fragment). -/
def lowerCh (c : Char) : Char :=
  if 'A' ≤ c && c ≤ 'Z' then Char.ofNat (c.toNat + 32) else c

/-- Regex word characters (`\w` / the complement of `\b`): `[a-zA-Z0-9_]`. -/
def isWordCh (c : Char) : Bool :=
  ('a' ≤ c && c ≤ 'z') || ('A' ≤ c && c ≤ 'Z') || ('0' ≤ c && c ≤ '9') || c = '_'

/-- Maximal runs of word characters (fueled scan). -/
def wordRunsGo : ℕ → Str → List Str
  | _, [] => []
  | 0, _ => []
  | fuel + 1, c :: rest =>
    if isWordCh c then
      let w := c :: List.takeWhile isWordCh rest
      let rest' := List.dropWhile isWordCh rest
      w :: wordRunsGo fuel rest'
    else wordRunsGo fuel rest

/-- Maximal runs of word characters of a string. -/
def wordRuns (s : Str) : List Str := wordRunsGo s.length s

/-- The stop-word set of `_extract_answer_keywords`. -/
def stopWords : List Str :=
  (["the", "a", "an", "and", "or", "but", "in", "on", "at", "to", "for",
    "of", "with", "by", "from", "as", "is", "are", "was", "were", "be",
    "been", "being", "have", "has", "had", "do", "does", "did", "will",
    "would", "could", "should", "may", "might", "must", "can", "this",
    "that", "these", "those", "i", "you", "he", "she", "it", "we", "they",
    "what", "which", "who", "where", "when", "why", "how", "if", "then",
    "than", "more", "most", "less", "least", "very", "much", "many",
    "some", "any", "all", "each", "every", "no", "not", "only", "just"
   ]).map (fun s => s.data)

/-- `re.findall(r'\b[a-z0-9]+\b', text)` on an already lower-cased text:
the maximal word-character runs that contain no underscore.  (A run that
contains `_` yields no match at all: `[a-z0-9]+` cannot cross the
underscore, and `\b` fails strictly inside a word run.) -/
def alnumRuns (lowered : Str) : List Str :=
  (wordRuns lowered).filter (fun w => !w.contains '_')

/-- `re.findall(r'\b\d+\b', answer)`: the maximal word-character runs that
consist entirely of digits (a digit run adjacent to a letter or underscore
fails the `\b` boundaries). -/
def digitRuns (answer : Str) : List Str :=
  (wordRuns answer).filter (fun w => w.all isDigitCh)

/-- `_extract_answer_keywords(answer)` from `app/services/rag.py`.  The
Python function returns a set; it is embedded as a list (order and
multiplicity never matter: the set is only ever iterated for an existential
check, and tested for emptiness). -/
def extract_answer_keywords (answer : Str) : List Str :=
  if answer = [] then []
  else
    let lowered := answer.map lowerCh
    let words :=
      (alnumRuns lowered).filter
        (fun w => !stopWords.contains w && decide (2 < w.length))
    words ++ digitRuns answer

/-- Does `kw` occur in `q` at position `i` with regex word boundaries on
both sides? -/
def occursAtWithBoundary (q kw : Str) (i : ℕ) : Bool :=
  kw.isPrefixOf (q.drop i) &&
  (decide (i = 0) || !isWordCh (q.getD (i - 1) ' ')) &&
  (decide (q.length ≤ i + kw.length) || !isWordCh (q.getD (i + kw.length) ' '))

/-- `re.search(r'\b' + re.escape(keyword.lower()) + r'\b', quote_lower)`
as a boolean: some position of the lower-cased quote carries the lower-cased
keyword with word boundaries. -/
def kwMatches (quoteLower kw : Str) : Bool :=
  (List.range (quoteLower.length + 1)).any
    (fun i => occursAtWithBoundary quoteLower (kw.map lowerCh) i)

/-- `_quote_is_relevant(quote, answer_keywords)` from `app/services/rag.py`. -/
def quote_is_relevant (quote : Str) (answerKeywords : List Str) : Bool :=
  if quote = [] || answerKeywords = [] then false
  else
    let ql := quote.map lowerCh
    answerKeywords.any (fun kw => kwMatches ql kw)

/-!  ## `app/services/rag.py` — hybrid retrieval  -/

/-- A stored row of `document_chunks`, as selected by the retrieval SQL. -/
structure ChunkRow where
  id : ℕ
  company_id : ℕ
  document_id : ℕ
  chunk_index : ℕ
  text : Str
  heading : Option Str
  token_estimate : ℕ
  deriving Repr, DecidableEq

/-- The opaque collaborators of `perform_semantic_search`, determined by the
query: whether `embedder.embed(query)` returned a valid 768-dimensional
vector, whether the hybrid SQL statement executes (full-text machinery
available), the per-row semantic score `1 - (embedding <=> query_vec)`, the
per-row lexical score `COALESCE(ts_rank_cd(text_tsv, tsquery), 0)`, and the
`document_id → filename` lookup (`"Unknown"` default folded in). -/
structure SearchEnv where
  embedOk : Bool
  hybridOk : Bool
  sem : ChunkRow → ℚ
  lex : ChunkRow → ℚ
  filenames : ℕ → Str

/-- One entry of the chunk-dictionary list built by
`perform_semantic_search` / `_fallback_semantic_search`.  The hybrid path
fills `semantic_score` and `lexical_score`; the fallback path leaves them
`none` and reports the semantic score as `similarity_score`. -/
structure ChunkResult where
  chunk_id : ℕ
  document_id : ℕ
  document_filename : Str
  chunk_index : ℕ
  text : Str
  heading : Option Str
  similarity_score : ℚ
  semantic_score : Option ℚ
  lexical_score : Option ℚ
  token_estimate : ℕ
  deriving Repr, DecidableEq

/-- Insert `x` into a descending-sorted list, after every element of score
`≥ score x` (the insertion step of a stable descending sort). -/
def insertDesc {α : Type} (score : α → ℚ) (x : α) : List α → List α
  | [] => [x]
  | y :: rest =>
    if score x ≤ score y then y :: insertDesc score x rest else x :: y :: rest

/-- `ORDER BY score DESC` / `sorted(key=score, reverse=True)` over a list of
rows: a stable descending sort (equal scores keep their original order,
matching Python's stable `sorted`; SQL leaves tie order unspecified). -/
def sortByScoreDesc {α : Type} (score : α → ℚ) (l : List α) : List α :=
  l.foldl (fun acc x => insertDesc score x acc) []

/-- The final hybrid score: `0.7 * semantic + 0.3 * lexical`. -/
def finalScore (env : SearchEnv) (r : ChunkRow) : ℚ :=
  mkRat 7 10 * env.sem r + mkRat 3 10 * env.lex r

/-- The `WHERE` clause shared by both retrieval paths:
`dc.company_id = :company_id` and optionally
`dc.document_id = :document_id`. -/
def rowMatches (company : ℕ) (docFilter : Option ℕ) (r : ChunkRow) : Bool :=
  r.company_id == company &&
  (match docFilter with | some d => r.document_id == d | none => true)

/-- The result dictionary built on the hybrid path (lines 150–167). -/
def hybridResult (env : SearchEnv) (r : ChunkRow) : ChunkResult :=
  { chunk_id := r.id
    document_id := r.document_id
    document_filename := env.filenames r.document_id
    chunk_index := r.chunk_index
    text := r.text
    heading := r.heading
    similarity_score := finalScore env r
    semantic_score := some (env.sem r)
    lexical_score := some (env.lex r)
    token_estimate := r.token_estimate }

/-- The result dictionary built on the fallback path (lines 225–239). -/
def fallbackResult (env : SearchEnv) (r : ChunkRow) : ChunkResult :=
  { chunk_id := r.id
    document_id := r.document_id
    document_filename := env.filenames r.document_id
    chunk_index := r.chunk_index
    text := r.text
    heading := r.heading
    similarity_score := env.sem r
    semantic_score := none
    lexical_score := none
    token_estimate := r.token_estimate }

/-- `_fallback_semantic_search` from `app/services/rag.py`: pure semantic
ranking over the tenant-filtered rows, `LIMIT top_k`. -/
def fallback_semantic_search (env : SearchEnv) (db : List ChunkRow)
    (company : ℕ) (topK : ℕ) (docFilter : Option ℕ) : List ChunkResult :=
  let rows :=
    (sortByScoreDesc env.sem (db.filter (rowMatches company docFilter))).take
      topK
  rows.map (fallbackResult env)

/-- `perform_semantic_search` from `app/services/rag.py`: fail closed when
the query embedding is invalid; otherwise run the hybrid SQL (semantic
candidate pool of size `max(top_k*4, 20)`, reranked by the blended score),
falling back to pure semantic ranking when the hybrid statement fails. -/
def perform_semantic_search (env : SearchEnv) (db : List ChunkRow)
    (company : ℕ) (topK : ℕ) (docFilter : Option ℕ) : List ChunkResult :=
  if !env.embedOk then []
  else if env.hybridOk then
    let candidateLimit := max (topK * 4) 20
    let candidates :=
      (sortByScoreDesc env.sem (db.filter (rowMatches company docFilter))).take
        candidateLimit
    let rows := (sortByScoreDesc (finalScore env) candidates).take topK
    rows.map (hybridResult env)
  else
    fallback_semantic_search env db company topK docFilter

/-!  ## `app/services/rag.py` — prompt building and answer pipeline  -/

/-- The configuration values consumed by `answer_question`. -/
structure RagSettings where
  RAG_TOP_K : ℕ
  RAG_MAX_CONTEXT_CHARS : ℕ

/-- The fixed system prompt of `build_rag_prompt` (its exact text plays no
role in any claim; it is carried verbatim-in-spirit as an opaque constant
preamble). -/
def systemPromptHead : Str :=
  ("You are a company AI assistant. Your role is to answer questions " ++
   "based ONLY on the provided context from company documents.\n\n" ++
   "CRITICAL RULES - STRICT ENFORCEMENT: ...\n\n" ++
   "Context from company documents:\n").data

/-- The context block of `build_rag_prompt` (lines 296–311): one tagged
entry per chunk, truncated to `RAG_MAX_CONTEXT_CHARS` with a visible
marker. -/
def contextBlock (st : RagSettings) (chunks : List ChunkResult) : Str :=
  let block :=
    chunks.foldl
      (fun acc c =>
        let tag :=
          match c.heading with
          | some h =>
            "\n[Document: ".data ++ c.document_filename ++
              " — Section: ".data ++ h ++ "]\n".data
          | none => "\n[Document: ".data ++ c.document_filename ++ "]\n".data
        acc ++ tag ++ c.text ++ "\n".data)
      []
  if st.RAG_MAX_CONTEXT_CHARS < block.length then
    block.take st.RAG_MAX_CONTEXT_CHARS ++ "\n[... context truncated ...]".data
  else block

/-- `build_rag_prompt(context_chunks, user_question)` from
`app/services/rag.py`. -/
def build_rag_prompt (st : RagSettings) (chunks : List ChunkResult)
    (question : Str) : Str :=
  systemPromptHead ++ contextBlock st chunks ++
    "\n\nQuestion: ".data ++ question ++
    ("\n\nAnswer based ONLY on EXPLICIT information in the context above. " ++
     "Do NOT infer, imply, or speculate. If the answer is not directly " ++
     "stated, say you don" ).data ++ [Char.ofNat 39] ++
    "t have enough information.".data

/-- ASCII apostrophe, used inside the fixed answer strings. -/
def apos : Char := Char.ofNat 39

/-- The fixed no-chunks answer of `answer_question` (line 353). -/
def noInfoAnswer : Str :=
  "I don".data ++ [apos] ++
  ("t have enough information in the uploaded documents to answer this " ++
   "question.").data

/-- The fixed low-relevance answer of `answer_question` (line 365). -/
def lowRelevanceAnswer : Str :=
  "I don".data ++ [apos] ++
  ("t have enough information in the uploaded documents to answer this " ++
   "question. The available documents do not contain information directly " ++
   "related to this topic.").data

/-- The fixed generation-error answer of `answer_question` (line 380). -/
def generationErrorAnswer : Str :=
  ("I encountered an error while generating a response. " ++
   "Please try again.").data

/-- The maximum of the `similarity_score`s of a non-empty chunk list
(`max(chunk["similarity_score"] for chunk in chunks)`); `0` on the empty
list, which `answer_question` never reaches. -/
def maxSimilarity : List ChunkResult → ℚ
  | [] => 0
  | c :: cs => cs.foldl (fun m x => max m x.similarity_score) c.similarity_score

/-- The average similarity used for the confidence label (line 388). -/
def avgSimilarity (chunks : List ChunkResult) : ℚ :=
  ((chunks.map (fun c => c.similarity_score)).sum) / chunks.length

/-- The near-duplicate check of the quote merge (lines 448–462): substring
containment either way, or more than 80 % of the new quote's characters
occurring somewhere in the existing quote, measured against the shorter
length.  (`common_chars / shorter > 0.8` is a float division; it is embedded
as the exact rational comparison `5 * common > 4 * shorter`.) -/
def isDupQuote (quote existing : Str) : Bool :=
  let shorter := min quote.length existing.length
  if 0 < shorter then
    containsSub quote existing || containsSub existing quote ||
      decide (4 * shorter < 5 * (quote.filter (fun c => existing.contains c)).length)
  else false

/-- Insert a quote into a list sorted by ascending length, after every
quote of smaller or equal length (the insertion step of a stable ascending
sort). -/
def insertByLen (x : Str) : List Str → List Str
  | [] => [x]
  | y :: rest =>
    if y.length ≤ x.length then y :: insertByLen x rest else x :: y :: rest

/-- `existing_quotes.sort(key=len)` (line 470): a stable ascending sort by
length, matching Python's stable `list.sort`. -/
def sortByLen (l : List Str) : List Str :=
  l.foldl (fun acc x => insertByLen x acc) []

/-- The quote merge of `answer_question` (lines 443–465): append each new
relevant quote unless it is a near-duplicate of a quote already present
(the list grows as it is scanned, as in the Python loop). -/
def mergeQuotes (existing newQuotes : List Str) : List Str :=
  newQuotes.foldl
    (fun acc q => if acc.any (fun e => isDupQuote q e) then acc else acc ++ [q])
    existing

/-- One source entry of the `sources_map` of `answer_question`. -/
structure Source where
  document_id : ℕ
  document_filename : Str
  heading : Option Str
  quotes : List Str
  chunk_index : ℕ
  similarity_score : ℚ
  deriving Repr, DecidableEq

/-- The grouping key of `sources_map`: `(document_id, heading)`. -/
abbrev SourceKey := ℕ × Option Str

/-- Update the entry of `key` in an insertion-ordered association list
(Python dict assignment to an existing key keeps its position). -/
def assocUpdate (m : List (SourceKey × Source)) (key : SourceKey)
    (v : Source) : List (SourceKey × Source) :=
  m.map (fun e => if e.1 = key then (key, v) else e)

/-- The per-chunk body of the sources loop of `answer_question`
(lines 411–477): extract up to two candidate quotes, keep only the
answer-relevant ones, skip the chunk entirely when none survives, create or
merge the `(document_id, heading)` group, cap each group at three quotes
(shortest first), and track the best similarity score of the group. -/
def sourcesStep (answerKeywords : List Str)
    (m : List (SourceKey × Source)) (chunk : ChunkResult) :
    List (SourceKey × Source) :=
  let candidates := extract_quotes chunk.text 2 220
  let relevantQuotes := candidates.filter (fun q => quote_is_relevant q answerKeywords)
  if relevantQuotes = [] then m
  else
    let key : SourceKey := (chunk.document_id, chunk.heading)
    match m.find? (fun e => e.1 = key) with
    | none =>
      m ++ [(key,
        { document_id := chunk.document_id
          document_filename := chunk.document_filename
          heading := chunk.heading
          quotes := relevantQuotes
          chunk_index := chunk.chunk_index
          similarity_score := chunk.similarity_score })]
    | some e =>
      let merged := mergeQuotes e.2.quotes relevantQuotes
      let capped :=
        if 3 < merged.length then (sortByLen merged).take 3 else merged
      let newSim :=
        if e.2.similarity_score < chunk.similarity_score then
          chunk.similarity_score
        else e.2.similarity_score
      assocUpdate m key { e.2 with quotes := capped, similarity_score := newSim }

/-- The full sources loop of `answer_question`. -/
def buildSources (answerKeywords : List Str) (chunks : List ChunkResult) :
    List (SourceKey × Source) :=
  chunks.foldl (sourcesStep answerKeywords) []

/-- `top_k = top_k or settings.RAG_TOP_K` (line 345): Python truthiness,
so both `None` and `0` select the configured default. -/
def resolveTopK (st : RagSettings) : Option ℕ → ℕ
  | none => st.RAG_TOP_K
  | some k => if k = 0 then st.RAG_TOP_K else k

/-- `answer_question(query, company_id, db, top_k)` from
`app/services/rag.py`, returning
`(answer, citations, sources, confidence, used_chunks)`.
The language-model client is the parameter `llm` (`None` models a failed or
timed-out generation; the empty string models an empty response — both take
the `if not answer` branch).  The pure text normalisation
`_clean_answer_text` (lines 670–719) is passed as the parameter `clean`,
placed exactly where the code calls it; no claim depends on its definition.
`top_k or settings.RAG_TOP_K` is Python truthiness: `None` and `0` both
fall back to the default. -/
def answer_question (st : RagSettings) (env : SearchEnv)
    (llm : Str → Option Str) (clean : Str → Str) (db : List ChunkRow)
    (query : Str) (company : ℕ) (topK : Option ℕ) :
    Str × List (ℕ × Str × Option Str × ℕ) ×
      List (ℕ × Str × Option Str × List Str) × Str × ℕ :=
  let chunks := perform_semantic_search env db company (resolveTopK st topK) none
  if chunks = [] then
    (noInfoAnswer, [], [], "none".data, 0)
  else if maxSimilarity chunks < mkRat 3 10 then
    (lowRelevanceAnswer, [], [], "low".data, 0)
  else
    let prompt := build_rag_prompt st chunks query
    match llm prompt with
    | none => (generationErrorAnswer, [], [], "error".data, 0)
    | some answer =>
      if answer = [] then (generationErrorAnswer, [], [], "error".data, 0)
      else
        let confidence :=
          if mkRat 7 10 ≤ avgSimilarity chunks then "high".data
          else if mkRat 1 2 ≤ avgSimilarity chunks then "medium".data
          else "low".data
        let cleaned := clean answer
        let answerKeywords := extract_answer_keywords cleaned
        let sortedSources :=
          sortByScoreDesc (fun s => s.similarity_score)
            ((buildSources answerKeywords chunks).map (fun e => e.2))
        let citations :=
          sortedSources.map
            (fun s => (s.document_id, s.document_filename, s.heading,
              s.chunk_index))
        let sources :=
          sortedSources.map
            (fun s => (s.document_id, s.document_filename, s.heading,
              s.quotes))
        (cleaned, citations, sources, confidence, chunks.length)

/-!  ## `app/services/indexer.py`  -/

/-- `IndexStatus` from `app/db/models/document.py`. -/
inductive IStatus where
  | not_indexed
  | indexing
  | indexed
  | failed
  deriving Repr, DecidableEq

/-- The index-related attributes of a `Document` row. -/
structure DocState where
  index_status : IStatus
  index_error : Option Str
  deriving Repr, DecidableEq

/-- A persisted `DocumentChunk` record (`app/db/models/document_chunk.py`). -/
structure ChunkRec where
  company_id : ℕ
  document_id : ℕ
  chunk_index : ℕ
  text : Str
  token_estimate : ℕ
  embedding : List ℚ
  heading : Option Str
  char_start : ℕ
  char_end : ℕ
  deriving Repr, DecidableEq

/-- The SQLAlchemy session, restricted to the state `index_document`
touches: the committed (database) document/chunk state and the current
in-session view.  Attribute assignment and `add`/`delete` mutate the
current view; `commit` copies it into the committed state; `rollback`
restores the current view from the committed state, discarding every
un-committed attribute change — this is `Session.rollback`'s documented
behaviour (all pending changes are expired and reverted). -/
structure Session where
  committedDoc : DocState
  curDoc : DocState
  committedChunks : List ChunkRec
  curChunks : List ChunkRec
  deriving Repr, DecidableEq

/-- `db.commit()`. -/
def commitS (s : Session) : Session :=
  ⟨s.curDoc, s.curDoc, s.curChunks, s.curChunks⟩

/-- `db.rollback()`. -/
def rollbackS (s : Session) : Session :=
  ⟨s.committedDoc, s.committedDoc, s.committedChunks, s.committedChunks⟩

/-- `document.index_status = st`. -/
def setStatus (st : IStatus) (s : Session) : Session :=
  { s with curDoc := { s.curDoc with index_status := st } }

/-- `document.index_error = e`. -/
def setIndexError (e : Option Str) (s : Session) : Session :=
  { s with curDoc := { s.curDoc with index_error := e } }

/-- `db.query(DocumentChunk).filter(document_id == ...).delete()`. -/
def deleteChunksOfDoc (docId : ℕ) (s : Session) : Session :=
  { s with curChunks := s.curChunks.filter (fun c => c.document_id ≠ docId) }

/-- `db.add(chunk)`. -/
def addChunk (c : ChunkRec) (s : Session) : Session :=
  { s with curChunks := s.curChunks ++ [c] }

/-- `estimate_tokens(text)` from `app/services/indexer.py`. -/
def estimate_tokens (t : Str) : ℕ := t.length / 4

/-- The chunk-creating loop of `index_document` (lines 93–116): enumerate
the zipped (metadata, embedding) pairs, skip entries whose embedding failed
or whose dimensionality is not 768, and build a `DocumentChunk` whose
`chunk_index` is the enumeration index `idx` — the index over the
*pre-filter* list, including skipped entries. -/
def persistChunks (companyId docId : ℕ)
    (metas : List (Str × ℕ × ℕ × Option Str))
    (embeds : List (Option (List ℚ))) : List ChunkRec :=
  ((metas.zip embeds).enum).filterMap fun p =>
    match p.2.2 with
    | none => none
    | some v =>
      if v.length = 768 then
        some
          { company_id := companyId
            document_id := docId
            chunk_index := p.1
            text := p.2.1.1
            token_estimate := estimate_tokens p.2.1.1
            embedding := v
            heading := p.2.1.2.2.2
            char_start := p.2.1.2.1
            char_end := p.2.1.2.2.1 }
      else none

/-- The `except Exception` handler of `index_document` (lines 135–141):
set `index_status = FAILED` and `index_error = str(e)` on the session
objects, then `db.rollback()`, then `db.commit()`, and return
`(False, str(e), 0)`. -/
def indexExceptionHandler (e : Str) (s : Session) :
    Session × (Bool × Option Str × ℕ) :=
  let s1 := setIndexError (some e) (setStatus .failed s)
  let s2 := commitS (rollbackS s1)
  (s2, (false, some e, 0))

/-- `index_document(document_id, company_id, db)` from
`app/services/indexer.py`.

Parameters standing for the collaborators: `docFound` / `companyOk` /
`textOpt` model the loaded `Document` row and its validation (lines 40–51);
`embedF` is `embedder.embed` (the batch call is one `embed` per text);
`raiseAtPersistCommit = some e` injects a storage exception at the
`db.commit()` that flushes the freshly added chunk records (line 118) — the
`PersistenceError` scenario of the spec — in which case control transfers
to the `except` handler. -/
def index_document (docFound companyOk : Bool) (textOpt : Option Str)
    (companyId docId : ℕ) (embedF : Str → Option (List ℚ))
    (raiseAtPersistCommit : Option Str) (s0 : Session) :
    (Bool × Option Str × ℕ) × Session :=
  if !docFound then ((false, some "Document not found".data, 0), s0)
  else if !companyOk then
    ((false, some "Document does not belong to company".data, 0), s0)
  else
    match textOpt with
    | none => ((false, some "Document has no extracted text".data, 0), s0)
    | some txt =>
      if txt = [] then
        ((false, some "Document has no extracted text".data, 0), s0)
      else
        let s1 := commitS (setIndexError none (setStatus .indexing s0))
        let s2 := commitS (deleteChunksOfDoc docId s1)
        let metas := chunk_text_with_headings txt 1000 150
        if metas = [] then
          let s3 := commitS (setIndexError
            (some "No chunks generated from document text".data)
            (setStatus .not_indexed s2))
          ((false, some "No chunks generated".data, 0), s3)
        else
          let embeds := metas.map (fun m => embedF m.1)
          let failedCount := (embeds.filter (fun e => e.isNone)).length
          if failedCount = embeds.length then
            let s3 := commitS (setIndexError
              (some "Failed to generate embeddings for all chunks".data)
              (setStatus .failed s2))
            ((false, some "Failed to generate embeddings".data, 0), s3)
          else
            let recs := persistChunks companyId docId metas embeds
            let s3 := recs.foldl (fun s c => addChunk c s) s2
            match raiseAtPersistCommit with
            | some e =>
              let he := indexExceptionHandler e s3
              (he.2, he.1)
            | none =>
              let s4 := commitS s3
              let chunksCreated := recs.length
              let s5 :=
                if 0 < chunksCreated then
                  commitS (setIndexError none (setStatus .indexed s4))
                else
                  commitS (setIndexError
                    (some "No chunks were successfully indexed".data)
                    (setStatus .failed s4))
              ((true, none, chunksCreated), s5)

/-- The validity test of the chunk-persisting loop: an embedding is kept
when it is present and 768-dimensional. -/
def keepEmbed : Option (List ℚ) → Bool
  | none => false
  | some v => v.length == 768

/-- Recombine the segment/delimiter pairs of the quote sentence splitter. -/
def joinPairs (ps : List (Str × Str)) : Str :=
  ps.foldr (fun p acc => p.1 ++ p.2 ++ acc) []

/-!  ## Concrete inputs used in the statements below  -/

/-- A fresh session over a not-yet-indexed document. -/
def sessInit : Session :=
  ⟨⟨.not_indexed, none⟩, ⟨.not_indexed, none⟩, [], []⟩

/-- A document text that chunks (at the indexer's fixed parameters
`chunk_size = 1000`, `overlap = 150`) into exactly two chunks: a paragraph
of 100 `a`s and a paragraph of 900 `b`s. -/
def docTwoChunks : Str :=
  List.replicate 100 'a' ++ ['\n', '\n'] ++ List.replicate 900 'b'

/-- An embedding client that fails on the first chunk of `docTwoChunks`
(the 100-character one) and returns a valid 768-dimensional vector for the
second. -/
def embedFailFirst : Str → Option (List ℚ) :=
  fun t => if t.length ≤ 100 then none else some (List.replicate 768 0)

/-- A text whose heading-aware chunking (at the default parameters
`chunk_size = 1000`, `overlap = 150`) produces a fallback-located chunk with
`char_end > len(text)`: the first flushed chunk `a^400 ++ "\n\n" ++ b^200 ++
"\n\n" ++ c^200` does not occur at the start of the text (the first
separator has three newlines) but occurs verbatim near the end, so the
search cursor jumps to position 807; the final chunk is joined with single
spaces, occurs nowhere, and falls back to cursor position 808 with length
953, giving `char_end = 1761 > 1611 = len(text)`. -/
def docSpanOverflow : Str :=
  List.replicate 400 'a' ++ ['\n', '\n', '\n'] ++ List.replicate 200 'b' ++
  ['\n', '\n'] ++ List.replicate 200 'c' ++ ['\n', '\n'] ++
  List.replicate 400 'a' ++ ['\n', '\n'] ++ List.replicate 200 'b' ++
  ['\n', '\n'] ++ List.replicate 200 'c'

/-- The final chunk produced by `chunk_text` on `docSpanOverflow`: the
overlap tail of the first flushed chunk and the three remaining paragraphs,
joined by single spaces. -/
def overflowChunk : Str :=
  List.replicate 150 'c' ++ [' '] ++ List.replicate 400 'a' ++ [' '] ++
  List.replicate 200 'b' ++ [' '] ++ List.replicate 200 'c'

/-- A single 226-character sentence with no internal spaces: its quote is
truncated at exactly 220 characters, in the middle of the word. -/
def longWordSentence : Str := List.replicate 225 'a' ++ ['.']

/-- The chunk text of the quote-grounding example of the spec. -/
def vacationChunk : Str := "Employees get 15 vacation days per year.".data

/-- The answer of the quote-grounding example of the spec. -/
def vacationAnswer : Str := "You have 15 vacation days.".data

/-!  # Theorems

General lemmas first, then one theorem (plus witness or counterexample) per
claim.  -/

/-- `rstrip` never lengthens a string. -/
theorem pyRStrip_length_le (s : Str) : (pyRStrip s).length ≤ s.length := by
  simp only [pyRStrip, List.length_reverse]
  calc (s.reverse.dropWhile pyWs).length
      ≤ s.reverse.length := length_dropWhile_le _ _
    _ = s.length := List.length_reverse s

/-- `strip` never lengthens a string. -/
theorem pyStrip_length_le (s : Str) : (pyStrip s).length ≤ s.length :=
  le_trans (pyRStrip_length_le _) (length_dropWhile_le _ _)

/-- Every piece emitted by the fueled hard-cap loop has length at most
`chunk_size`. -/
theorem hardCapLoop_mem {cs ov : ℕ} :
    ∀ (fuel : ℕ) (c : Str) (res : List Str),
      hardCapLoop cs ov fuel c = some res → ∀ x ∈ res, x.length ≤ cs := by
  intro fuel
  induction fuel with
  | zero =>
    intro c res h x hx
    simp only [hardCapLoop] at h
    split at h
    · rename_i hlen
      cases h
      split at hx
      · cases hx
      · simp only [List.mem_singleton] at hx
        subst hx
        omega
    · cases h
  | succ n ih =>
    intro c res h x hx
    simp only [hardCapLoop] at h
    split at h
    · rename_i hlen
      cases hrec : hardCapLoop cs ov n (c.drop (cs - ov)) with
      | none => rw [hrec] at h; cases h
      | some res' =>
        rw [hrec] at h
        simp only [Option.map_some'] at h
        cases h
        rcases List.mem_cons.mp hx with hx | hx
        · subst hx
          simp [List.length_take]
        · exact ih _ _ hrec x hx
    · rename_i hlen
      cases h
      split at hx
      · cases hx
      · simp only [List.mem_singleton] at hx
        subst hx
        omega

/-- Every piece emitted by the hard-cap pass has length at most
`chunk_size`. -/
theorem hardCap_mem {cs ov : ℕ} {c x : Str} (hx : x ∈ hardCap cs ov c) :
    x.length ≤ cs := by
  unfold hardCap at hx
  cases h : hardCapLoop cs ov c.length c with
  | none => rw [h] at hx; simp at hx
  | some res => rw [h] at hx; exact hardCapLoop_mem _ _ _ h x hx

/-- Every chunk surviving the final size-limiting pass has length at most
`chunk_size`. -/
theorem capPass_mem {cs ov : ℕ} {chunks : List Str} {x : Str}
    (hx : x ∈ capPass cs ov chunks) : x.length ≤ cs := by
  rcases List.mem_flatMap.mp hx with ⟨c, _, hc⟩
  by_cases hlen : c.length ≤ cs
  · rw [if_pos hlen] at hc
    simp only [List.mem_singleton] at hc
    exact hc ▸ hlen
  · rw [if_neg hlen] at hc
    exact hardCap_mem hc

/-- Every chunk returned by `chunk_text` is non-empty and has length at most
`chunk_size`. -/
theorem chunk_text_mem {text : Str} {cs ov : ℕ} {x : Str}
    (hx : x ∈ chunk_text text cs ov) : x.length ≤ cs ∧ x ≠ [] := by
  unfold chunk_text at hx
  split at hx
  · simp at hx
  · simp only [List.mem_filter, List.mem_map, decide_eq_true_eq] at hx
    rcases hx with ⟨⟨y, hy, hxy⟩, hne⟩
    refine ⟨?_, hne⟩
    calc x.length = (pyStrip y).length := by rw [hxy]
      _ ≤ y.length := pyStrip_length_le y
      _ ≤ cs := capPass_mem hy

/-- A string all of whose characters are whitespace strips to the empty
string. -/
theorem pyStrip_of_all_ws {s : Str} (h : s.all pyWs = true) :
    pyStrip s = [] := by
  have h1 : pyLStrip s = [] := by
    simp only [pyLStrip]
    rw [List.dropWhile_eq_nil_iff]
    intro x hx
    exact List.all_eq_true.mp h x hx
  simp [pyStrip, h1, pyRStrip]

/-- **C8.**  For every input text and parameters with `overlap < chunk_size`
(the regime in which the Python hard-cap loop terminates), every chunk
returned by `chunk_text` has length at most `chunk_size`; and every
whitespace-only (in particular empty) input yields the empty list of
chunks. -/
theorem chunk_text_length_bound (text : Str) (cs ov : ℕ) (hov : ov < cs) :
    (∀ c ∈ chunk_text text cs ov, c.length ≤ cs) ∧
    (text.all pyWs = true → chunk_text text cs ov = []) := by
  refine ⟨fun c hc => (chunk_text_mem hc).1, fun hws => ?_⟩
  unfold chunk_text
  rw [if_pos (pyStrip_of_all_ws hws)]

/-- Witness for C8 at a concrete input. -/
theorem chunk_text_length_bound_witness :
    (2 < 5) ∧
    ((∀ c ∈ chunk_text "ab cd".data 5 2, c.length ≤ 5) ∧
     ("ab cd".data.all pyWs = true → chunk_text "ab cd".data 5 2 = [])) :=
  ⟨by decide, chunk_text_length_bound "ab cd".data 5 2 (by decide)⟩

/-- The fueled hard-cap loop succeeds whenever the fuel exceeds
`length - chunk_size` steps; in particular `length` fuel always suffices. -/
theorem hardCapLoop_total {cs ov : ℕ} (hov : ov < cs) :
    ∀ (fuel : ℕ) (c : Str), c.length ≤ fuel + cs →
      (hardCapLoop cs ov fuel c).isSome = true := by
  intro fuel
  induction fuel with
  | zero =>
    intro c hc
    simp only [Nat.zero_add] at hc
    simp [hardCapLoop, hc]
  | succ n ih =>
    intro c hc
    simp only [hardCapLoop]
    split
    · rename_i hlen
      have : (c.drop (cs - ov)).length ≤ n + cs := by
        simp only [List.length_drop]
        omega
      have h2 := ih _ this
      cases h : hardCapLoop cs ov n (c.drop (cs - ov)) with
      | none => rw [h] at h2; simp at h2
      | some res => simp [h]
    · simp

/-- **C10.**  For `chunk_size > 0` and `0 ≤ overlap < chunk_size`, the final
hard-cap `while` loop of `chunk_text` terminates: running the loop with
`length` fuel always completes (the fueled loop returns `some`), because each
iteration strictly decreases the length of the remaining oversized chunk —
the step removes `chunk_size − overlap > 0` characters. -/
theorem hardCap_terminates (cs ov : ℕ) (hcs : 0 < cs) (hov : ov < cs) :
    (∀ c : Str, (hardCapLoop cs ov c.length c).isSome = true) ∧
    (∀ c : Str, cs < c.length → (c.drop (cs - ov)).length < c.length) := by
  refine ⟨fun c => hardCapLoop_total hov c.length c (by omega), fun c hc => ?_⟩
  simp only [List.length_drop]
  omega

/-- Witness for C10 at concrete parameters and chunk. -/
theorem hardCap_terminates_witness :
    (0 < 5 ∧ 2 < 5) ∧
    (hardCapLoop 5 2 (List.replicate 12 'x' : Str).length
      (List.replicate 12 'x')).isSome = true ∧
    ((List.replicate 12 'x' : Str).drop (5 - 2)).length <
      (List.replicate 12 'x' : Str).length :=
  ⟨⟨by decide, by decide⟩,
   (hardCap_terminates 5 2 (by decide) (by decide)).1 _,
   (hardCap_terminates 5 2 (by decide) (by decide)).2 _ (by decide)⟩

/-- Every tuple of the locating loop carries one of the input chunks, and
its `char_end` is `char_start` plus the chunk length. -/
theorem locateChunks_mem (text : Str) (hm : List (ℕ × Option Str)) :
    ∀ (s : ℕ) (chunks : List Str) (t : Str × ℕ × ℕ × Option Str),
      t ∈ locateChunks text hm s chunks →
      t.1 ∈ chunks ∧ t.2.2.1 = t.2.1 + t.1.length := by
  intro s chunks
  induction chunks generalizing s with
  | nil => intro t ht; cases ht
  | cons c rest ih =>
    intro t ht
    simp only [locateChunks] at ht
    rcases List.mem_cons.mp ht with h | h
    · subst h
      exact ⟨List.mem_cons_self c rest, rfl⟩
    · obtain ⟨h1, h2⟩ := ih _ t h
      exact ⟨List.mem_cons_of_mem c h1, h2⟩

/-- A non-empty pattern occurring at position `s` of `text` ends within
`text`. -/
theorem isPrefixOf_drop_bound {text sub : Str} {s : ℕ} (hne : sub ≠ [])
    (h : sub.isPrefixOf (text.drop s) = true) :
    s + sub.length ≤ text.length := by
  have hp : sub <+: text.drop s := List.isPrefixOf_iff_prefix.mp h
  have hlen := hp.length_le
  rw [List.length_drop] at hlen
  by_cases hs : s ≤ text.length
  · omega
  · exfalso
    have hnil : text.drop s = [] := by
      rw [List.drop_eq_nil_iff]
      omega
    rw [hnil] at hp
    have h0 := List.prefix_nil.mp hp
    exact hne h0

/-- **C7 (amended).**  For every input and parameters, every tuple returned
by `chunk_text_with_headings` satisfies `char_end = char_start + len(chunk)`
(so `0 ≤ char_start` trivially, the positions being natural numbers), and
`char_end ≤ len(text)` whenever the chunk actually occurs in the original
text at `char_start` — which covers every chunk located by the exact
forward search.  On the fallback path (chunk not found), `char_start` is the
running cursor and `char_end` can exceed `len(text)` (see the
counterexample). -/
theorem chunk_span_bounds (text : Str) (cs ov : ℕ) :
    ∀ t ∈ chunk_text_with_headings text cs ov,
      t.2.2.1 = t.2.1 + t.1.length ∧
      (t.1.isPrefixOf (text.drop t.2.1) = true → t.2.2.1 ≤ text.length) := by
  intro t ht
  unfold chunk_text_with_headings at ht
  split at ht
  · cases ht
  · obtain ⟨hmem, heq⟩ := locateChunks_mem text _ 0 _ t ht
    refine ⟨heq, fun hpre => ?_⟩
    have hne := (chunk_text_mem hmem).2
    have hb := isPrefixOf_drop_bound hne hpre
    omega

/-- Witness for the amended C7 at a concrete input. -/
theorem chunk_span_bounds_witness :
    (("hello world".data, 0, 11, (none : Option Str)) ∈
      chunk_text_with_headings "hello world".data 1000 150) ∧
    ((11 : ℕ) = 0 + ("hello world".data).length ∧
     (("hello world".data).isPrefixOf (("hello world".data).drop 0) = true →
       (11 : ℕ) ≤ ("hello world".data).length)) :=
  ⟨by decide,
   chunk_span_bounds "hello world".data 1000 150
     ("hello world".data, 0, 11, (none : Option Str)) (by decide)⟩

set_option maxRecDepth 2000000 in
set_option maxHeartbeats 4000000 in
/-- **C7 (counterexample).**  On `docSpanOverflow` (1611 characters), with
the parameters used by the indexer (`chunk_size = 1000`, `overlap = 150`),
`chunk_text_with_headings` returns the fallback-located tuple
`(overflowChunk, 808, 1761, none)` whose `char_end = 1761` exceeds
`len(text) = 1611` — refuting the claim that every returned span satisfies
`char_end ≤ len(text)`. -/
theorem chunk_span_bounds_counterexample :
    ((overflowChunk, 808, 1761, (none : Option Str)) ∈
      chunk_text_with_headings docSpanOverflow 1000 150) ∧
    docSpanOverflow.length = 1611 ∧ ¬ ((1761 : ℕ) ≤ docSpanOverflow.length) := by
  decide

/-- Adding chunk records leaves the committed document state unchanged. -/
theorem foldl_addChunk_committedDoc (recs : List ChunkRec) (s : Session) :
    (recs.foldl (fun s c => addChunk c s) s).committedDoc = s.committedDoc := by
  induction recs generalizing s with
  | nil => rfl
  | cons r rest ih => simpa only [List.foldl_cons] using ih (addChunk r s)

/-- Adding chunk records leaves the current document state unchanged. -/
theorem foldl_addChunk_curDoc (recs : List ChunkRec) (s : Session) :
    (recs.foldl (fun s c => addChunk c s) s).curDoc = s.curDoc := by
  induction recs generalizing s with
  | nil => rfl
  | cons r rest ih => simpa only [List.foldl_cons] using ih (addChunk r s)

/-- Adding chunk records leaves the committed chunk store unchanged. -/
theorem foldl_addChunk_committedChunks (recs : List ChunkRec) (s : Session) :
    (recs.foldl (fun s c => addChunk c s) s).committedChunks =
      s.committedChunks := by
  induction recs generalizing s with
  | nil => rfl
  | cons r rest ih => simpa only [List.foldl_cons] using ih (addChunk r s)

/-- Adding chunk records appends them to the current chunk view. -/
theorem foldl_addChunk_curChunks (recs : List ChunkRec) (s : Session) :
    (recs.foldl (fun s c => addChunk c s) s).curChunks =
      s.curChunks ++ recs := by
  induction recs generalizing s with
  | nil => simp
  | cons r rest ih =>
    simp only [List.foldl_cons]
    rw [ih (addChunk r s)]
    simp [addChunk]

/-- The branch conditions of `index_document` in terms of its collaborators:
reaching the chunk-persisting commit requires a non-empty chunking and at
least one non-failed embedding. -/
theorem index_document_exception_path (txt : Str) (cid did : ℕ)
    (embedF : Str → Option (List ℚ)) (e : Str) (s0 : Session)
    (htxt : txt ≠ [])
    (hchunks : chunk_text_with_headings txt 1000 150 ≠ [])
    (hsome :
      (((chunk_text_with_headings txt 1000 150).map fun m =>
        embedF m.1).filter (fun x => x.isNone)).length ≠
      ((chunk_text_with_headings txt 1000 150).map fun m => embedF m.1).length) :
    index_document true true (some txt) cid did embedF (some e) s0 =
      ((false, some e, 0),
        commitS (rollbackS (setIndexError (some e) (setStatus .failed
          ((persistChunks cid did (chunk_text_with_headings txt 1000 150)
              ((chunk_text_with_headings txt 1000 150).map fun m =>
                embedF m.1)).foldl (fun s c => addChunk c s)
            (commitS (deleteChunksOfDoc did
              (commitS (setIndexError none (setStatus .indexing s0)))))))))) := by
  unfold index_document
  simp only [Bool.not_true, Bool.false_eq_true, if_false, if_neg htxt,
    if_neg hchunks, if_neg hsome, indexExceptionHandler]

/-- **C2 (behaviour at the failing input).**  When a storage exception is
raised at the chunk-persisting commit — after the `indexing` status was
committed — the `except` handler of `index_document` sets
`index_status = failed` and `index_error` on the session objects and *then*
calls `db.rollback()`, which discards those un-committed attribute changes;
the `db.commit()` that follows therefore persists nothing, and the
document's committed `index_status` remains `indexing` while the call
returns `(False, str(e), 0)` — contradicting the claim that a failed run
records `failed` and never leaves the document in `indexing`. -/
theorem indexing_rollback_bug (txt : Str) (cid did : ℕ)
    (embedF : Str → Option (List ℚ)) (e : Str) (s0 : Session)
    (htxt : txt ≠ [])
    (hchunks : chunk_text_with_headings txt 1000 150 ≠ [])
    (hsome :
      (((chunk_text_with_headings txt 1000 150).map fun m =>
        embedF m.1).filter (fun x => x.isNone)).length ≠
      ((chunk_text_with_headings txt 1000 150).map fun m => embedF m.1).length) :
    (index_document true true (some txt) cid did embedF (some e)
      s0).2.committedDoc.index_status = IStatus.indexing ∧
    (index_document true true (some txt) cid did embedF (some e)
      s0).2.committedDoc.index_status ≠ IStatus.failed ∧
    (index_document true true (some txt) cid did embedF (some e) s0).1 =
      (false, some e, 0) := by
  rw [index_document_exception_path txt cid did embedF e s0 htxt hchunks hsome]
  refine ⟨?_, ?_, rfl⟩ <;>
    simp [commitS, rollbackS, setIndexError, setStatus, deleteChunksOfDoc,
      foldl_addChunk_committedDoc]

/-- Witness for C2 at a concrete run: a one-chunk document whose embedding
succeeds, with the persisting commit raising `"boom"`. -/
theorem indexing_rollback_bug_witness :
    ("hello world".data ≠ ([] : Str)) ∧
    (chunk_text_with_headings "hello world".data 1000 150 ≠ []) ∧
    ((index_document true true (some "hello world".data) 7 3
      (fun _ => some (List.replicate 768 0)) (some "boom".data)
      sessInit).2.committedDoc.index_status = IStatus.indexing ∧
     (index_document true true (some "hello world".data) 7 3
      (fun _ => some (List.replicate 768 0)) (some "boom".data)
      sessInit).2.committedDoc.index_status ≠ IStatus.failed ∧
     (index_document true true (some "hello world".data) 7 3
      (fun _ => some (List.replicate 768 0)) (some "boom".data) sessInit).1 =
      (false, some "boom".data, 0)) :=
  ⟨by decide, by decide,
   indexing_rollback_bug "hello world".data 7 3
     (fun _ => some (List.replicate 768 0)) "boom".data sessInit
     (by decide) (by decide) (by decide)⟩

/-- The exception-free run of `index_document` past validation, chunking and
embedding, written out as one equation. -/
theorem index_document_success_path (txt : Str) (cid did : ℕ)
    (embedF : Str → Option (List ℚ)) (s0 : Session)
    (htxt : txt ≠ [])
    (hchunks : chunk_text_with_headings txt 1000 150 ≠ [])
    (hsome :
      (((chunk_text_with_headings txt 1000 150).map fun m =>
        embedF m.1).filter (fun x => x.isNone)).length ≠
      ((chunk_text_with_headings txt 1000 150).map fun m => embedF m.1).length) :
    index_document true true (some txt) cid did embedF none s0 =
      ((true, none,
        (persistChunks cid did (chunk_text_with_headings txt 1000 150)
          ((chunk_text_with_headings txt 1000 150).map fun m =>
            embedF m.1)).length),
       if 0 < (persistChunks cid did (chunk_text_with_headings txt 1000 150)
          ((chunk_text_with_headings txt 1000 150).map fun m =>
            embedF m.1)).length then
         commitS (setIndexError none (setStatus .indexed (commitS
           ((persistChunks cid did (chunk_text_with_headings txt 1000 150)
              ((chunk_text_with_headings txt 1000 150).map fun m =>
                embedF m.1)).foldl (fun s c => addChunk c s)
            (commitS (deleteChunksOfDoc did
              (commitS (setIndexError none (setStatus .indexing s0)))))))))
       else
         commitS (setIndexError
           (some "No chunks were successfully indexed".data)
           (setStatus .failed (commitS
           ((persistChunks cid did (chunk_text_with_headings txt 1000 150)
              ((chunk_text_with_headings txt 1000 150).map fun m =>
                embedF m.1)).foldl (fun s c => addChunk c s)
            (commitS (deleteChunksOfDoc did
              (commitS (setIndexError none (setStatus .indexing s0)))))))))) := by
  unfold index_document
  simp only [Bool.not_true, Bool.false_eq_true, if_false, if_neg htxt,
    if_neg hchunks, if_neg hsome]

/-- **C9 (amended).**  When chunking succeeds and not every embedding fails,
`index_document` always returns success (`True`) with no error message and
the count of persisted chunks, and sets `index_status = indexed` exactly
when at least one chunk was persisted and `index_status = failed` when zero
chunks survived the embedding / dimensionality filter — but in that
zero-survivor case the returned value is still a success with count 0, not
a failure. -/
theorem index_success_semantics (txt : Str) (cid did : ℕ)
    (embedF : Str → Option (List ℚ)) (s0 : Session)
    (htxt : txt ≠ [])
    (hchunks : chunk_text_with_headings txt 1000 150 ≠ [])
    (hsome :
      (((chunk_text_with_headings txt 1000 150).map fun m =>
        embedF m.1).filter (fun x => x.isNone)).length ≠
      ((chunk_text_with_headings txt 1000 150).map fun m => embedF m.1).length) :
    (index_document true true (some txt) cid did embedF none s0).1 =
      (true, none,
        (persistChunks cid did (chunk_text_with_headings txt 1000 150)
          ((chunk_text_with_headings txt 1000 150).map fun m =>
            embedF m.1)).length) ∧
    (index_document true true (some txt) cid did embedF none
      s0).2.committedDoc.index_status =
      (if 0 < (persistChunks cid did (chunk_text_with_headings txt 1000 150)
          ((chunk_text_with_headings txt 1000 150).map fun m =>
            embedF m.1)).length then IStatus.indexed else IStatus.failed) := by
  rw [index_document_success_path txt cid did embedF s0 htxt hchunks hsome]
  refine ⟨rfl, ?_⟩
  split <;> simp [commitS, setIndexError, setStatus]

/-- Witness for the amended C9 at a concrete run (one chunk, valid
embedding, so one chunk persists and the status is `indexed`). -/
theorem index_success_semantics_witness :
    ("hello world".data ≠ ([] : Str)) ∧
    (chunk_text_with_headings "hello world".data 1000 150 ≠ []) ∧
    ((index_document true true (some "hello world".data) 7 3
        (fun _ => some (List.replicate 768 0)) none sessInit).1 =
      (true, none,
        (persistChunks 7 3 (chunk_text_with_headings "hello world".data 1000 150)
          ((chunk_text_with_headings "hello world".data 1000 150).map fun m =>
            (fun _ => some (List.replicate 768 (0 : ℚ))) m.1)).length) ∧
     (index_document true true (some "hello world".data) 7 3
        (fun _ => some (List.replicate 768 0)) none
        sessInit).2.committedDoc.index_status =
      (if 0 < (persistChunks 7 3
          (chunk_text_with_headings "hello world".data 1000 150)
          ((chunk_text_with_headings "hello world".data 1000 150).map fun m =>
            (fun _ => some (List.replicate 768 (0 : ℚ))) m.1)).length then
        IStatus.indexed else IStatus.failed)) :=
  ⟨by decide, by decide,
   index_success_semantics "hello world".data 7 3
     (fun _ => some (List.replicate 768 0)) sessInit
     (by decide) (by decide) (by decide)⟩

/-- **C9 (counterexample).**  A document that chunks into one chunk whose
embedding succeeds but has dimension 1 (≠ 768): zero chunks survive, the
status is set to `failed` — and yet the call returns success `(True, None,
0)`, refuting the claim that a failure is returned to the caller when zero
chunks survive (and that success is returned *exactly* when at least one
chunk is persisted). -/
theorem index_success_counterexample :
    (index_document true true (some "hello world".data) 7 3
      (fun _ => some [0]) none sessInit).1 = (true, none, 0) ∧
    (index_document true true (some "hello world".data) 7 3
      (fun _ => some [0]) none sessInit).2.committedDoc.index_status =
      IStatus.failed ∧
    (index_document true true (some "hello world".data) 7 3
      (fun _ => some [0]) none sessInit).2.committedChunks = [] := by
  decide

/-- Zipping a list with its image under `g` pairs every element with its
image. -/
theorem zip_map_self {α β : Type} (g : α → β) (l : List α) :
    l.zip (l.map g) = l.map (fun a => (a, g a)) := by
  induction l with
  | nil => rfl
  | cons a rest ih => simp [ih]

/-- The ordinals of the persisted chunks are exactly the enumeration indices
of the entries whose embedding is kept. -/
theorem persistChunks_indices (cid did : ℕ)
    (metas : List (Str × ℕ × ℕ × Option Str))
    (embeds : List (Option (List ℚ))) :
    (persistChunks cid did metas embeds).map (fun c => c.chunk_index) =
      (metas.zip embeds).enum.filterMap
        (fun p => if keepEmbed p.2.2 then some p.1 else none) := by
  unfold persistChunks
  rw [List.map_filterMap]
  congr 1
  funext p
  cases h : p.2.2 with
  | none => simp [keepEmbed, h]
  | some v =>
    by_cases hv : v.length = 768
    · simp [keepEmbed, h, hv]
    · simp [keepEmbed, h, hv]

/-- Members of the kept-index list over an enumeration starting at `n` are
at least `n`. -/
theorem mem_keptIndices_ge {α : Type} (q : α → Bool) :
    ∀ (l : List α) (n m : ℕ),
      m ∈ (l.enumFrom n).filterMap
        (fun p => if q p.2 then some p.1 else none) → n ≤ m := by
  intro l
  induction l with
  | nil => intro n m hm; simp at hm
  | cons a rest ih =>
    intro n m hm
    simp only [List.enumFrom_cons, List.filterMap_cons] at hm
    by_cases hq : q a
    · rw [if_pos hq] at hm
      rcases List.mem_cons.mp hm with h | h
      · omega
      · have := ih (n + 1) m h
        omega
    · rw [if_neg hq] at hm
      have := ih (n + 1) m hm
      omega

/-- The kept-index list over an enumeration is strictly increasing. -/
theorem pairwise_keptIndices {α : Type} (q : α → Bool) :
    ∀ (l : List α) (n : ℕ),
      List.Pairwise (· < ·)
        ((l.enumFrom n).filterMap
          (fun p => if q p.2 then some p.1 else none)) := by
  intro l
  induction l with
  | nil => intro n; simp
  | cons a rest ih =>
    intro n
    simp only [List.enumFrom_cons, List.filterMap_cons]
    by_cases hq : q a
    · rw [if_pos hq]
      refine List.Pairwise.cons ?_ (ih (n + 1))
      intro m hm
      have := mem_keptIndices_ge q rest (n + 1) m hm
      omega
    · rw [if_neg hq]
      exact ih (n + 1)

/-- When every entry is kept, the kept-index list over an enumeration
starting at `n` is `[n, n+1, …]`. -/
theorem keptIndices_all {α : Type} (q : α → Bool) :
    ∀ (l : List α) (n : ℕ), (∀ a ∈ l, q a = true) →
      (l.enumFrom n).filterMap
        (fun p => if q p.2 then some p.1 else none) =
      List.range' n l.length := by
  intro l
  induction l with
  | nil => intro n _; simp
  | cons a rest ih =>
    intro n hall
    simp only [List.enumFrom_cons, List.filterMap_cons,
      if_pos (hall a (List.mem_cons_self a rest)), List.length_cons,
      List.range']
    exact congrArg _ (ih (n + 1) (fun b hb => hall b (List.mem_cons_of_mem a hb)))

/-- `filterMap` over an enumeration of a mapped list is `filterMap` over the
enumeration of the original list with the map composed in. -/
theorem enumFrom_map_filterMap {α β γ : Type} (g : α → β) (q : ℕ × β → Option γ) :
    ∀ (l : List α) (n : ℕ),
      ((l.map g).enumFrom n).filterMap q =
      (l.enumFrom n).filterMap (fun p => q (p.1, g p.2)) := by
  intro l
  induction l with
  | nil => intro n; rfl
  | cons a rest ih =>
    intro n
    simp only [List.map_cons, List.enumFrom_cons, List.filterMap_cons]
    cases h0 : q (n, g a) <;> simp [h0, ih]

/-- The `enum` version of `enumFrom_map_filterMap`. -/
theorem enum_map_filterMap {α β γ : Type} (g : α → β) (q : ℕ × β → Option γ)
    (l : List α) :
    ((l.map g).enum).filterMap q =
      l.enum.filterMap (fun p => q (p.1, g p.2)) :=
  enumFrom_map_filterMap g q l 0

/-- Every chunk record created by the persisting loop belongs to the
document being indexed. -/
theorem persistChunks_docId (cid did : ℕ)
    (metas : List (Str × ℕ × ℕ × Option Str))
    (embeds : List (Option (List ℚ))) :
    ∀ r ∈ persistChunks cid did metas embeds, r.document_id = did := by
  intro r hr
  unfold persistChunks at hr
  rcases List.mem_filterMap.mp hr with ⟨p, _, hp⟩
  split at hp
  · cases hp
  · split at hp
    · cases hp
      rfl
    · cases hp

/-- **C1 (amended).**  On a successful `index_document` run (chunking
non-empty, not all embeddings failed, no storage exception), the persisted
chunk set of the document consists exactly of the surviving entries, and
their `chunk_index` ordinals are exactly the *pre-filter* enumeration
indices of the entries whose embedding is kept — survivors are never
renumbered.  Consequently the ordinals are strictly increasing, and when
every chunk survives the embedding and dimensionality filter they are the
contiguous `0, 1, …, n−1`; but discarding a chunk that precedes a survivor
leaves the ordinals non-contiguous (the counterexample: first of two chunks
fails → persisted ordinals `[1]`). -/
theorem persist_ordering (txt : Str) (cid did : ℕ)
    (embedF : Str → Option (List ℚ)) (s0 : Session)
    (htxt : txt ≠ [])
    (hchunks : chunk_text_with_headings txt 1000 150 ≠ [])
    (hsome :
      (((chunk_text_with_headings txt 1000 150).map fun m =>
        embedF m.1).filter (fun x => x.isNone)).length ≠
      ((chunk_text_with_headings txt 1000 150).map fun m => embedF m.1).length) :
    ((index_document true true (some txt) cid did embedF none
        s0).2.committedChunks.filter (fun c => c.document_id == did)).map
      (fun c => c.chunk_index) =
      (persistChunks cid did (chunk_text_with_headings txt 1000 150)
        ((chunk_text_with_headings txt 1000 150).map fun m =>
          embedF m.1)).map (fun c => c.chunk_index) ∧
    ((persistChunks cid did (chunk_text_with_headings txt 1000 150)
        ((chunk_text_with_headings txt 1000 150).map fun m =>
          embedF m.1)).map (fun c => c.chunk_index) =
      (chunk_text_with_headings txt 1000 150).enum.filterMap
        (fun p => if keepEmbed (embedF p.2.1) then some p.1 else none)) ∧
    List.Pairwise (· < ·)
      ((persistChunks cid did (chunk_text_with_headings txt 1000 150)
        ((chunk_text_with_headings txt 1000 150).map fun m =>
          embedF m.1)).map (fun c => c.chunk_index)) ∧
    ((∀ m ∈ chunk_text_with_headings txt 1000 150,
        keepEmbed (embedF m.1) = true) →
      (persistChunks cid did (chunk_text_with_headings txt 1000 150)
        ((chunk_text_with_headings txt 1000 150).map fun m =>
          embedF m.1)).map (fun c => c.chunk_index) =
        List.range (chunk_text_with_headings txt 1000 150).length) := by
  refine ⟨?_, ?_, ?_, ?_⟩
  · rw [index_document_success_path txt cid did embedF s0 htxt hchunks hsome]
    have hcc :
        ∀ s : Session, (if 0 < (persistChunks cid did
            (chunk_text_with_headings txt 1000 150)
            ((chunk_text_with_headings txt 1000 150).map fun m =>
              embedF m.1)).length then
          commitS (setIndexError none (setStatus .indexed (commitS s)))
         else
          commitS (setIndexError
            (some "No chunks were successfully indexed".data)
            (setStatus .failed (commitS s)))).committedChunks = s.curChunks := by
      intro s
      split <;> simp [commitS, setIndexError, setStatus]
    rw [hcc]
    rw [foldl_addChunk_curChunks]
    have hs2 :
        (commitS (deleteChunksOfDoc did
          (commitS (setIndexError none
            (setStatus .indexing s0))))).curChunks =
        s0.curChunks.filter (fun c => c.document_id ≠ did) := by
      simp [commitS, deleteChunksOfDoc, setIndexError, setStatus]
    rw [hs2, List.filter_append]
    have h1 :
        ((s0.curChunks.filter (fun c => c.document_id ≠ did)).filter
          (fun c => c.document_id == did)) = [] := by
      rw [List.filter_eq_nil_iff]
      intro c hc
      have hne := (List.mem_filter.mp hc).2
      simp only [ne_eq, decide_not, Bool.not_eq_eq_eq_not, Bool.not_true,
        decide_eq_false_iff_not] at hne
      simp [hne]
    have h2 :
        ((persistChunks cid did (chunk_text_with_headings txt 1000 150)
          ((chunk_text_with_headings txt 1000 150).map fun m =>
            embedF m.1)).filter (fun c => c.document_id == did)) =
        persistChunks cid did (chunk_text_with_headings txt 1000 150)
          ((chunk_text_with_headings txt 1000 150).map fun m => embedF m.1) := by
      apply List.filter_eq_self.mpr
      intro c hc
      simp [persistChunks_docId cid did _ _ c hc]
    rw [h1, h2]
    simp
  · rw [persistChunks_indices, zip_map_self, enum_map_filterMap]
  · rw [persistChunks_indices]
    exact pairwise_keptIndices
      (fun pr : (Str × ℕ × ℕ × Option Str) × Option (List ℚ) =>
        keepEmbed pr.2) _ 0
  · intro hall
    rw [persistChunks_indices, zip_map_self]
    have h :=
      keptIndices_all
        (fun pr : (Str × ℕ × ℕ × Option Str) × Option (List ℚ) =>
          keepEmbed pr.2)
        ((chunk_text_with_headings txt 1000 150).map fun a => (a, embedF a.1)) 0
        (by
          intro b hb
          rcases List.mem_map.mp hb with ⟨a, ha, rfl⟩
          exact hall a ha)
    rw [List.length_map] at h
    rw [List.range_eq_range']
    exact h

/-- Witness for the amended C1 at a concrete run (one chunk, valid
embedding). -/
theorem persist_ordering_witness :
    ("hello world".data ≠ ([] : Str)) ∧
    (chunk_text_with_headings "hello world".data 1000 150 ≠ []) ∧
    (((index_document true true (some "hello world".data) 7 3
        (fun _ => some (List.replicate 768 0)) none
        sessInit).2.committedChunks.filter
        (fun c => c.document_id == 3)).map (fun c => c.chunk_index) =
      (persistChunks 7 3 (chunk_text_with_headings "hello world".data 1000 150)
        ((chunk_text_with_headings "hello world".data 1000 150).map fun m =>
          (fun _ => some (List.replicate 768 (0 : ℚ))) m.1)).map
        (fun c => c.chunk_index) ∧
     ((persistChunks 7 3 (chunk_text_with_headings "hello world".data 1000 150)
        ((chunk_text_with_headings "hello world".data 1000 150).map fun m =>
          (fun _ => some (List.replicate 768 (0 : ℚ))) m.1)).map
        (fun c => c.chunk_index) =
      (chunk_text_with_headings "hello world".data 1000 150).enum.filterMap
        (fun p => if keepEmbed ((fun _ => some (List.replicate 768 (0 : ℚ)))
          p.2.1) then some p.1 else none)) ∧
     List.Pairwise (· < ·)
      ((persistChunks 7 3 (chunk_text_with_headings "hello world".data 1000 150)
        ((chunk_text_with_headings "hello world".data 1000 150).map fun m =>
          (fun _ => some (List.replicate 768 (0 : ℚ))) m.1)).map
        (fun c => c.chunk_index)) ∧
     ((∀ m ∈ chunk_text_with_headings "hello world".data 1000 150,
        keepEmbed ((fun _ => some (List.replicate 768 (0 : ℚ))) m.1) = true) →
      (persistChunks 7 3 (chunk_text_with_headings "hello world".data 1000 150)
        ((chunk_text_with_headings "hello world".data 1000 150).map fun m =>
          (fun _ => some (List.replicate 768 (0 : ℚ))) m.1)).map
        (fun c => c.chunk_index) =
        List.range (chunk_text_with_headings "hello world".data 1000 150).length)) :=
  ⟨by decide, by decide,
   persist_ordering "hello world".data 7 3
     (fun _ => some (List.replicate 768 0)) sessInit
     (by decide) (by decide) (by decide)⟩

set_option maxRecDepth 2000000 in
set_option maxHeartbeats 4000000 in
/-- **C1 (counterexample).**  Indexing `docTwoChunks` (two chunks) with an
embedding client that fails on the first chunk persists exactly one chunk —
but with `chunk_index = 1`, its pre-filter position, not the renumbered `0`:
the persisted ordinals are `[1]`, which is not contiguous from 0, refuting
the claim that survivors are renumbered sequentially. -/
theorem persist_ordering_counterexample :
    ((index_document true true (some docTwoChunks) 7 3 embedFailFirst none
        sessInit).2.committedChunks.map (fun c => c.chunk_index)) = [1] ∧
    ¬ (((index_document true true (some docTwoChunks) 7 3 embedFailFirst none
        sessInit).2.committedChunks.map (fun c => c.chunk_index)) =
      List.range (index_document true true (some docTwoChunks) 7 3
        embedFailFirst none sessInit).2.committedChunks.length) := by
  decide

/-- Membership through the descending insertion step. -/
theorem insertDesc_mem {α : Type} (score : α → ℚ) (a x : α) (l : List α) :
    x ∈ insertDesc score a l ↔ x = a ∨ x ∈ l := by
  induction l with
  | nil => simp [insertDesc]
  | cons y rest ih =>
    simp only [insertDesc]
    split
    · simp only [List.mem_cons, ih]
      tauto
    · simp

/-- Membership through the fold of descending insertions. -/
theorem foldl_insertDesc_mem {α : Type} (score : α → ℚ) (l : List α) :
    ∀ (acc : List α) (x : α),
      x ∈ l.foldl (fun acc a => insertDesc score a acc) acc ↔
        x ∈ acc ∨ x ∈ l := by
  induction l with
  | nil => simp
  | cons a rest ih =>
    intro acc x
    simp only [List.foldl_cons, ih, insertDesc_mem, List.mem_cons]
    tauto

/-- Sorting by score does not change membership. -/
theorem sortByScoreDesc_mem {α : Type} (score : α → ℚ) (l : List α) (x : α) :
    x ∈ sortByScoreDesc score l ↔ x ∈ l := by
  unfold sortByScoreDesc
  rw [foldl_insertDesc_mem]
  simp

/-- A row passing the retrieval `WHERE` clause belongs to the queried
company. -/
theorem rowMatches_company {company : ℕ} {docFilter : Option ℕ}
    {r : ChunkRow} (h : rowMatches company docFilter r = true) :
    r.company_id = company := by
  unfold rowMatches at h
  simp only [Bool.and_eq_true, beq_iff_eq] at h
  exact h.1

/-- **C3.**  Tenancy isolation of the retrieval: every chunk returned by
`perform_semantic_search` — on the hybrid path and on the semantic-only
fallback path alike — is built from a stored row whose `company_id` equals
the caller's company.  In particular, for two distinct tenants A ≠ B, no
result of a query under A carries data of a row of B. -/
theorem search_tenancy (env : SearchEnv) (db : List ChunkRow)
    (company topK : ℕ) (docFilter : Option ℕ) :
    ∀ r ∈ perform_semantic_search env db company topK docFilter,
      ∃ row, row ∈ db ∧ row.company_id = company ∧
        (r = hybridResult env row ∨ r = fallbackResult env row) := by
  intro r hr
  unfold perform_semantic_search at hr
  split at hr
  · cases hr
  · split at hr
    · rcases List.mem_map.mp hr with ⟨row, hrow, rfl⟩
      have h1 := List.mem_of_mem_take hrow
      have h2 := (sortByScoreDesc_mem _ _ _).mp h1
      have h3 := List.mem_of_mem_take h2
      have h4 := (sortByScoreDesc_mem _ _ _).mp h3
      obtain ⟨hdb, hmatch⟩ := List.mem_filter.mp h4
      exact ⟨row, hdb, rowMatches_company hmatch, Or.inl rfl⟩
    · unfold fallback_semantic_search at hr
      rcases List.mem_map.mp hr with ⟨row, hrow, rfl⟩
      have h1 := List.mem_of_mem_take hrow
      have h2 := (sortByScoreDesc_mem _ _ _).mp h1
      obtain ⟨hdb, hmatch⟩ := List.mem_filter.mp h2
      exact ⟨row, hdb, rowMatches_company hmatch, Or.inr rfl⟩

/-- Witness for C3: a two-tenant store queried as tenant 1 returns tenant
1's chunk, built from tenant 1's row. -/
theorem search_tenancy_witness :
    (hybridResult ⟨true, true, fun _ => 0, fun _ => 0, fun _ => []⟩
        ⟨10, 1, 20, 0, "alpha".data, none, 4⟩ ∈
      perform_semantic_search
        ⟨true, true, fun _ => 0, fun _ => 0, fun _ => []⟩
        [⟨10, 1, 20, 0, "alpha".data, none, 4⟩,
         ⟨11, 2, 21, 0, "beta".data, none, 4⟩] 1 1 none) ∧
    (∃ row, row ∈
        [⟨10, 1, 20, 0, "alpha".data, none, 4⟩,
         (⟨11, 2, 21, 0, "beta".data, none, 4⟩ : ChunkRow)] ∧
      row.company_id = 1 ∧
      (hybridResult ⟨true, true, fun _ => 0, fun _ => 0, fun _ => []⟩
          ⟨10, 1, 20, 0, "alpha".data, none, 4⟩ =
        hybridResult ⟨true, true, fun _ => 0, fun _ => 0, fun _ => []⟩ row ∨
       hybridResult ⟨true, true, fun _ => 0, fun _ => 0, fun _ => []⟩
          ⟨10, 1, 20, 0, "alpha".data, none, 4⟩ =
        fallbackResult ⟨true, true, fun _ => 0, fun _ => 0, fun _ => []⟩ row)) :=
  ⟨by with_unfolding_all decide,
   search_tenancy ⟨true, true, fun _ => 0, fun _ => 0, fun _ => []⟩
     [⟨10, 1, 20, 0, "alpha".data, none, 4⟩,
      ⟨11, 2, 21, 0, "beta".data, none, 4⟩] 1 1 none _
     (by with_unfolding_all decide)⟩

/-- **C4.**  The grounding-threshold gate: whenever retrieval returns a
non-empty chunk list whose maximum `similarity_score` is strictly below
`0.3`, `answer_question` returns the fixed low-relevance answer with
confidence `"low"`, an empty citations list, an empty sources list and
`used_chunks = 0` — for every behaviour of the language-model client and of
the answer cleaner, neither of which is consulted. -/
theorem low_similarity_gate (st : RagSettings) (env : SearchEnv)
    (db : List ChunkRow) (query : Str) (company : ℕ) (topK : Option ℕ)
    (h1 : perform_semantic_search env db company (resolveTopK st topK) none ≠
      [])
    (h2 : maxSimilarity
      (perform_semantic_search env db company (resolveTopK st topK) none) <
      mkRat 3 10) :
    ∀ (llm : Str → Option Str) (clean : Str → Str),
      answer_question st env llm clean db query company topK =
        (lowRelevanceAnswer, [], [], "low".data, 0) := by
  intro llm clean
  unfold answer_question
  rw [if_neg h1, if_pos h2]

/-- Witness for C4: one stored chunk with semantic score `1/5` (so hybrid
similarity `7/50 < 3/10`), and an LLM that would answer if asked. -/
theorem low_similarity_gate_witness :
    (perform_semantic_search
        ⟨true, true, fun _ => mkRat 1 5, fun _ => 0, fun _ => []⟩
        [⟨10, 1, 20, 0, "alpha".data, none, 4⟩] 1
        (resolveTopK ⟨5, 1000⟩ none) none ≠ []) ∧
    (maxSimilarity (perform_semantic_search
        ⟨true, true, fun _ => mkRat 1 5, fun _ => 0, fun _ => []⟩
        [⟨10, 1, 20, 0, "alpha".data, none, 4⟩] 1
        (resolveTopK ⟨5, 1000⟩ none) none) < mkRat 3 10) ∧
    answer_question ⟨5, 1000⟩
        ⟨true, true, fun _ => mkRat 1 5, fun _ => 0, fun _ => []⟩
        (fun _ => some "generated".data) (fun a => a)
        [⟨10, 1, 20, 0, "alpha".data, none, 4⟩] "query".data 1 none =
      (lowRelevanceAnswer, [], [], "low".data, 0) :=
  ⟨by with_unfolding_all decide, by with_unfolding_all decide,
   low_similarity_gate ⟨5, 1000⟩
     ⟨true, true, fun _ => mkRat 1 5, fun _ => 0, fun _ => []⟩
     [⟨10, 1, 20, 0, "alpha".data, none, 4⟩] "query".data 1 none
     (by with_unfolding_all decide) (by with_unfolding_all decide)
     (fun _ => some "generated".data) (fun a => a)⟩

/-- `lstrip` yields a suffix. -/
theorem pyLStrip_suffix (s : Str) : pyLStrip s <:+ s :=
  List.dropWhile_suffix pyWs

/-- `rstrip` yields a prefix. -/
theorem pyRStrip_pre (s : Str) : pyRStrip s <+: s := by
  have h := List.reverse_prefix.mpr (List.dropWhile_suffix (l := s.reverse) pyWs)
  rwa [List.reverse_reverse] at h

/-- `strip` yields a contiguous substring. -/
theorem pyStrip_inf (s : Str) : pyStrip s <:+: s :=
  ((pyRStrip_pre (pyLStrip s)).isInfix).trans ((pyLStrip_suffix s).isInfix)

/-- `take` yields a prefix. -/
theorem take_pre {α : Type} (n : ℕ) (l : List α) : l.take n <+: l :=
  ⟨l.drop n, List.take_append_drop n l⟩

/-- The quote sentence splitter loses no characters: segments, delimiters
and the trailing segment concatenate back to the input (prefixed by the
reversed accumulator). -/
theorem qSplitGo_join :
    ∀ (fuel : ℕ) (acc s : Str),
      joinPairs (qSplitGo fuel acc s).1 ++ (qSplitGo fuel acc s).2 =
        acc.reverse ++ s := by
  intro fuel
  induction fuel with
  | zero =>
    intro acc s
    cases s <;> simp [qSplitGo, joinPairs]
  | succ n ih =>
    intro acc s
    cases s with
    | nil => simp [qSplitGo, joinPairs]
    | cons c rest =>
      simp only [qSplitGo]
      split
      · rename_i hcond
        simp only [joinPairs, List.foldr_cons]
        have hjoin := ih [] (List.dropWhile pyWs rest)
        simp only [List.reverse_nil, List.nil_append] at hjoin
        simp only [joinPairs] at hjoin
        rw [List.append_assoc, List.append_assoc, hjoin]
        simp only [List.cons_append, List.append_assoc,
          List.takeWhile_append_dropWhile]
      · split
        · rename_i hcond2
          have hrest : rest = [] := by
            have := Bool.and_elim_right hcond2
            simpa [List.isEmpty_iff] using this
          subst hrest
          simp [joinPairs]
        · rename_i hc1 hc2
          have := ih (c :: acc) rest
          simpa [List.reverse_cons, List.append_assoc] using this

/-- Every segment-plus-delimiter of the splitter output is a contiguous
substring of the recombined string. -/
theorem joinPairs_piece_inf :
    ∀ (ps : List (Str × Str)) (last : Str) (p : Str × Str), p ∈ ps →
      (p.1 ++ p.2) <:+: (joinPairs ps ++ last) := by
  intro ps
  induction ps with
  | nil => intro last p hp; cases hp
  | cons q rest ih =>
    intro last p hp
    rcases List.mem_cons.mp hp with h | h
    · subst h
      simp only [joinPairs, List.foldr_cons]
      exact ⟨[], List.foldr (fun p acc => p.1 ++ p.2 ++ acc) [] rest ++ last,
        by simp [List.append_assoc]⟩
    · have hih := ih last p h
      simp only [joinPairs, List.foldr_cons]
      refine hih.trans ?_
      simp only [joinPairs]
      exact List.IsSuffix.isInfix
        ⟨q.1 ++ q.2, by simp [List.append_assoc]⟩

/-- Every reconstructed sentence of `_extract_quotes` is a contiguous
substring of the (stripped) input text. -/
theorem reconstructSentences_inf (text s : Str)
    (hs : s ∈ reconstructSentences text) : s <:+: text := by
  unfold reconstructSentences at hs
  rcases List.mem_filter.mp hs with ⟨hmap, _⟩
  rcases List.mem_map.mp hmap with ⟨p, hp, rfl⟩
  have h1 : (p.1 ++ p.2) <:+: (joinPairs (qSplit text).1 ++ (qSplit text).2) :=
    joinPairs_piece_inf _ _ p hp
  have h2 : joinPairs (qSplit text).1 ++ (qSplit text).2 = text := by
    have := qSplitGo_join text.length [] text
    simpa [qSplit] using this
  rw [h2] at h1
  exact (pyStrip_inf _).trans h1

/-- The truncation of `_extract_quotes` is a prefix of the first
`maxLength` characters, with an ellipsis appended. -/
theorem truncateQuote_shape (ml : ℕ) (s : Str) :
    ∃ t : Str, truncateQuote ml s = t ++ "...".data ∧ t <+: s.take ml ∧
      t.length ≤ ml := by
  cases h : pyRFindSpace (s.take ml) with
  | none =>
    refine ⟨pyRStrip (s.take ml), ?_, pyRStrip_pre _,
      le_trans (pyRStrip_length_le _) (List.length_take_le ml s)⟩
    simp only [truncateQuote, h]
  | some i =>
    by_cases hcond : 10 * i > 7 * ml
    · refine ⟨(s.take ml).take i, ?_, take_pre i (s.take ml),
        by simp only [List.length_take]; omega⟩
      simp only [truncateQuote, h, if_pos hcond]
    · refine ⟨pyRStrip (s.take ml), ?_, pyRStrip_pre _,
        le_trans (pyRStrip_length_le _) (List.length_take_le ml s)⟩
      simp only [truncateQuote, h, if_neg hcond]

/-- Every quote collected by the quote loop is a previously collected
quote, a short-enough sentence of the input list, or the truncation of a
sentence of the input list. -/
theorem quoteLoop_mem (mq ml : ℕ) :
    ∀ (recon acc : List Str) (q : Str), q ∈ quoteLoop mq ml acc recon →
      q ∈ acc ∨ ∃ s ∈ recon, (q = s ∧ q.length ≤ ml) ∨
        q = truncateQuote ml s := by
  intro recon
  induction recon with
  | nil =>
    intro acc q hq
    simp only [quoteLoop] at hq
    exact Or.inl hq
  | cons s rest ih =>
    intro acc q hq
    simp only [quoteLoop] at hq
    split at hq
    · rename_i hlen
      split at hq
      · rcases List.mem_append.mp hq with h | h
        · exact Or.inl h
        · refine Or.inr ⟨s, List.mem_cons_self s rest, Or.inl ?_⟩
          rcases List.mem_singleton.mp h with rfl
          exact ⟨rfl, hlen⟩
      · rcases ih (acc ++ [s]) q hq with h | ⟨s', hs', h⟩
        · rcases List.mem_append.mp h with h | h
          · exact Or.inl h
          · refine Or.inr ⟨s, List.mem_cons_self s rest, Or.inl ?_⟩
            rcases List.mem_singleton.mp h with rfl
            exact ⟨rfl, hlen⟩
        · exact Or.inr ⟨s', List.mem_cons_of_mem s hs', h⟩
    · split at hq
      · refine Or.inr ⟨s, List.mem_cons_self s rest, Or.inr ?_⟩
        rcases List.mem_singleton.mp hq with rfl
        rfl
      · rcases ih acc q hq with h | ⟨s', hs', h⟩
        · exact Or.inl h
        · exact Or.inr ⟨s', List.mem_cons_of_mem s hs', h⟩

/-- **C5 (amended).**  Every quote emitted by `_extract_quotes` is verbatim
up to the appended ellipsis: it is either a contiguous substring of the
chunk text of length at most 220 (a full extracted sentence, or the whole
short text), or `t ++ "..."` where `t` is a contiguous substring of the
chunk text of length at most 220 (the leading span of an over-long
sentence or of the boundary-free text, cut at the last space when that
space lies beyond 70 % of the limit and at exactly 220 characters
otherwise — so not always at a word boundary). -/
theorem extract_quotes_verbatim (chunkText q : Str)
    (hq : q ∈ extract_quotes chunkText 2 220) :
    (q <:+: chunkText ∧ q.length ≤ 220) ∨
    (∃ t : Str, q = t ++ "...".data ∧ t <:+: chunkText ∧ t.length ≤ 220) := by
  have htextinf : pyStrip chunkText <:+: chunkText := pyStrip_inf chunkText
  simp only [extract_quotes] at hq
  split at hq
  · cases hq
  · by_cases hrec : reconstructSentences (pyStrip chunkText) ≠ []
    · rw [if_pos hrec] at hq
      by_cases hquotes :
          quoteLoop 2 220 [] (reconstructSentences (pyStrip chunkText)) ≠ []
      · rw [if_pos hquotes] at hq
        have hq' := List.mem_of_mem_take hq
        rcases quoteLoop_mem 2 220 (reconstructSentences (pyStrip chunkText))
            [] q hq' with h | ⟨s, hs, h⟩
        · cases h
        · have hsinf : s <:+: chunkText :=
            (reconstructSentences_inf (pyStrip chunkText) s hs).trans htextinf
          rcases h with ⟨rfl, hlen⟩ | rfl
          · exact Or.inl ⟨hsinf, hlen⟩
          · rcases truncateQuote_shape 220 s with ⟨t, heq, hpre, hlen⟩
            refine Or.inr ⟨t, heq, ?_, hlen⟩
            exact ((hpre.trans (take_pre 220 s)).isInfix).trans hsinf
      · rw [if_neg hquotes] at hq
        split at hq
        · rcases truncateQuote_shape 220 (pyStrip chunkText) with
            ⟨t, heq, hpre, hlen⟩
          rcases List.mem_singleton.mp hq with rfl
          refine Or.inr ⟨t, heq, ?_, hlen⟩
          exact ((hpre.trans (take_pre 220 (pyStrip chunkText))).isInfix).trans
            htextinf
        · rename_i hshort
          rcases List.mem_singleton.mp hq with rfl
          exact Or.inl ⟨htextinf, by omega⟩
    · rw [if_neg hrec] at hq
      have hne : ¬ (([] : List Str) ≠ []) := by simp
      rw [if_neg hne] at hq
      split at hq
      · rcases truncateQuote_shape 220 (pyStrip chunkText) with
          ⟨t, heq, hpre, hlen⟩
        rcases List.mem_singleton.mp hq with rfl
        refine Or.inr ⟨t, heq, ?_, hlen⟩
        exact ((hpre.trans (take_pre 220 (pyStrip chunkText))).isInfix).trans
          htextinf
      · rename_i hshort
        rcases List.mem_singleton.mp hq with rfl
        exact Or.inl ⟨htextinf, by omega⟩

/-- Witness for the amended C5: the single quote extracted from the
vacation-policy chunk. -/
theorem extract_quotes_verbatim_witness :
    (vacationChunk ∈ extract_quotes vacationChunk 2 220) ∧
    ((vacationChunk <:+: vacationChunk ∧ vacationChunk.length ≤ 220) ∨
     (∃ t : Str, vacationChunk = t ++ "...".data ∧ t <:+: vacationChunk ∧
       t.length ≤ 220)) :=
  ⟨by decide, extract_quotes_verbatim vacationChunk vacationChunk (by decide)⟩

set_option maxRecDepth 1000000 in
/-- **C5 (counterexample).**  A single 226-character sentence with no
spaces: the emitted quote is the first 220 characters with an ellipsis
appended.  It is not a substring of the chunk (so not a full extracted
sentence), and its truncation point is not a word boundary: the 220-`a`
span is not followed by a space (nor by any boundary) in the chunk — the
cut is mid-word, refuting the claim that over-long sentences are truncated
at a word boundary. -/
theorem extract_quotes_counterexample :
    extract_quotes longWordSentence 2 220 =
      [List.replicate 220 'a' ++ "...".data] ∧
    ¬ ((List.replicate 220 'a' ++ "...".data) <:+: longWordSentence) ∧
    ¬ ((List.replicate 220 'a' ++ [' ']) <:+: longWordSentence) := by
  refine ⟨by decide, by decide, by decide⟩

/-- Membership through the quote merge: a merged quote was already present
or is one of the new quotes. -/
theorem mergeQuotes_mem :
    ∀ (newQuotes acc : List Str) (q : Str),
      q ∈ newQuotes.foldl
        (fun acc q =>
          if acc.any (fun e => isDupQuote q e) then acc else acc ++ [q]) acc →
      q ∈ acc ∨ q ∈ newQuotes := by
  intro newQuotes
  induction newQuotes with
  | nil => intro acc q hq; exact Or.inl hq
  | cons x rest ih =>
    intro acc q hq
    simp only [List.foldl_cons] at hq
    rcases ih _ q hq with h | h
    · split at h
      · exact Or.inl h
      · rcases List.mem_append.mp h with h | h
        · exact Or.inl h
        · exact Or.inr (List.mem_singleton.mp h ▸ List.mem_cons_self x rest)
    · exact Or.inr (List.mem_cons_of_mem x h)

/-- Membership through the ascending-length insertion step. -/
theorem insertByLen_mem (a x : Str) (l : List Str) :
    x ∈ insertByLen a l ↔ x = a ∨ x ∈ l := by
  induction l with
  | nil => simp [insertByLen]
  | cons y rest ih =>
    simp only [insertByLen]
    split
    · simp only [List.mem_cons, ih]
      tauto
    · simp

/-- Sorting quotes by length does not change membership. -/
theorem sortByLen_mem (l : List Str) (x : Str) :
    x ∈ sortByLen l ↔ x ∈ l := by
  unfold sortByLen
  have h : ∀ (l acc : List Str) (x : Str),
      x ∈ l.foldl (fun acc a => insertByLen a acc) acc ↔
        x ∈ acc ∨ x ∈ l := by
    intro l
    induction l with
    | nil => simp
    | cons a rest ih =>
      intro acc x
      simp only [List.foldl_cons, ih, insertByLen_mem, List.mem_cons]
      tauto
  rw [h]
  simp

/-- One step of the sources loop preserves the invariant that every stored
quote is answer-relevant. -/
theorem sourcesStep_relevant (kws : List Str)
    (m : List (SourceKey × Source)) (chunk : ChunkResult)
    (hm : ∀ e ∈ m, ∀ q ∈ e.2.quotes, quote_is_relevant q kws = true) :
    ∀ e ∈ sourcesStep kws m chunk, ∀ q ∈ e.2.quotes,
      quote_is_relevant q kws = true := by
  intro e he q hq
  simp only [sourcesStep] at he
  split at he
  · exact hm e he q hq
  · split at he
    · rcases List.mem_append.mp he with h | h
      · exact hm e h q hq
      · rcases List.mem_singleton.mp h with rfl
        simp only at hq
        exact (List.mem_filter.mp hq).2
    · rename_i e0 hfind
      rcases List.mem_map.mp he with ⟨e1, he1, hmap⟩
      by_cases hkey : e1.1 = (chunk.document_id, chunk.heading)
      · rw [if_pos hkey] at hmap
        subst hmap
        simp only at hq
        have hq' : q ∈ (if 3 < (mergeQuotes e0.2.quotes
            ((extract_quotes chunk.text 2 220).filter
              (fun q => quote_is_relevant q kws))).length then
            (sortByLen (mergeQuotes e0.2.quotes
              ((extract_quotes chunk.text 2 220).filter
                (fun q => quote_is_relevant q kws)))).take 3
          else mergeQuotes e0.2.quotes
            ((extract_quotes chunk.text 2 220).filter
              (fun q => quote_is_relevant q kws))) := hq
        have hmerged : q ∈ mergeQuotes e0.2.quotes
            ((extract_quotes chunk.text 2 220).filter
              (fun q => quote_is_relevant q kws)) := by
          split at hq'
          · exact (sortByLen_mem _ q).mp (List.mem_of_mem_take hq')
          · exact hq'
        rcases mergeQuotes_mem _ _ q hmerged with h | h
        · exact hm e0 (List.mem_of_find?_eq_some hfind) q h
        · exact (List.mem_filter.mp h).2
      · rw [if_neg hkey] at hmap
        subst hmap
        exact hm e1 he1 q hq

/-- The sources-loop invariant, over the whole fold. -/
theorem buildSources_relevant_aux (kws : List Str) :
    ∀ (chunks : List ChunkResult) (m : List (SourceKey × Source)),
      (∀ e ∈ m, ∀ q ∈ e.2.quotes, quote_is_relevant q kws = true) →
      ∀ e ∈ chunks.foldl (sourcesStep kws) m, ∀ q ∈ e.2.quotes,
        quote_is_relevant q kws = true := by
  intro chunks
  induction chunks with
  | nil => intro m hm; exact hm
  | cons c rest ih =>
    intro m hm
    simp only [List.foldl_cons]
    exact ih (sourcesStep kws m c) (sourcesStep_relevant kws m c hm)

/-- **C6.**  The quote-grounding filter of `answer_question`:
(1) every quote of every source built by the sources loop shares at least
one whole-word keyword with the (cleaned) answer — `quote_is_relevant`
holds of it; (2) a retrieved chunk none of whose candidate quotes passes
the keyword check contributes nothing (the loop step leaves the source map
unchanged); (3) for the spec's example, the quote
"Employees get 15 vacation days per year." is relevant to the answer
"You have 15 vacation days." (keywords `15`/`vacation`/`days` overlap) and
is retained by the filter. -/
theorem quote_grounding :
    (∀ (kws : List Str) (chunks : List ChunkResult)
       (e : SourceKey × Source), e ∈ buildSources kws chunks →
       ∀ q ∈ e.2.quotes, quote_is_relevant q kws = true) ∧
    (∀ (kws : List Str) (m : List (SourceKey × Source))
       (chunk : ChunkResult),
       (extract_quotes chunk.text 2 220).filter
         (fun q => quote_is_relevant q kws) = [] →
       sourcesStep kws m chunk = m) ∧
    (quote_is_relevant vacationChunk
      (extract_answer_keywords vacationAnswer) = true) ∧
    ((extract_quotes vacationChunk 2 220).filter
      (fun q => quote_is_relevant q (extract_answer_keywords vacationAnswer))
      = [vacationChunk]) := by
  refine ⟨?_, ?_, by decide, by decide⟩
  · intro kws chunks e he q hq
    exact buildSources_relevant_aux kws chunks [] (by intro e he; cases he)
      e he q hq
  · intro kws m chunk h
    simp only [sourcesStep, h]
    rfl

/-- Witness for C6: the sources built from the vacation-policy chunk
contain the example quote, and the theorem certifies it relevant. -/
theorem quote_grounding_witness :
    (((2, (none : Option Str)),
      ({ document_id := 2
         document_filename := "handbook".data
         heading := none
         quotes := [vacationChunk]
         chunk_index := 0
         similarity_score := 1 } : Source)) ∈
      buildSources (extract_answer_keywords vacationAnswer)
        [{ chunk_id := 1
           document_id := 2
           document_filename := "handbook".data
           chunk_index := 0
           text := vacationChunk
           heading := none
           similarity_score := 1
           semantic_score := none
           lexical_score := none
           token_estimate := 10 }] ∧
     vacationChunk ∈ [vacationChunk]) ∧
    quote_is_relevant vacationChunk
      (extract_answer_keywords vacationAnswer) = true :=
  ⟨⟨by with_unfolding_all decide, by decide⟩,
   quote_grounding.1 (extract_answer_keywords vacationAnswer)
     [{ chunk_id := 1
        document_id := 2
        document_filename := "handbook".data
        chunk_index := 0
        text := vacationChunk
        heading := none
        similarity_score := 1
        semantic_score := none
        lexical_score := none
        token_estimate := 10 }]
     ((2, (none : Option Str)),
      { document_id := 2
        document_filename := "handbook".data
        heading := none
        quotes := [vacationChunk]
        chunk_index := 0
        similarity_score := 1 })
     (by with_unfolding_all decide) vacationChunk (by decide)⟩

end AIAdvisor
